import Mathlib

/-!
# Token-bucket limiter of net/netfilter/nft_limit.c

A shallow embedding of the nftables limit expression and object: the
construction of the bucket from the netlink attributes (nft_limit_init and
its wrappers), the per-packet refill-and-consume step
(nft_limit_eval and its cost strategies), the dump of the configuration and
the selection of the operations.

Machine integers are natural numbers; every u64 operation of the source is
reduced modulo 2^64 explicitly, and the cast to s64 is the test against 2^63.
The spin lock is not modelled: one call of nft_limit_eval is one atomic step.
The clock read by ktime_get_ns() is the argument now of the step and of the
construction. Kernel helpers and constants whose headers are not among the
sources (the overflow-checked operations, the divisions, NSEC_PER_SEC, the
uapi constants) are modelled next to the code that uses them; the break
verdict code is an argument of the evaluation wrappers.
-/

namespace NftLimit

/-! ## Machine arithmetic -/

/-- Number of values of a u64, 2^64. -/
def U64_SIZE : Nat := 18446744073709551616

/-- Number of values of a u32, 2^32. -/
def U32_SIZE : Nat := 4294967296

/-- First u64 bit pattern that is negative when cast to s64, 2^63. -/
def S64_SIGN : Nat := 9223372036854775808

/-- Addition of two u64 values, wrapping. -/
def u64_add (a b : Nat) : Nat := (a + b) % U64_SIZE

/-- Subtraction of two u64 values, wrapping. -/
def u64_sub (a b : Nat) : Nat := (a + (U64_SIZE - b % U64_SIZE)) % U64_SIZE

/-- Multiplication of two u64 values, wrapping. -/
def u64_mul (a b : Nat) : Nat := (a * b) % U64_SIZE

/-- The test (s64)x >= 0 on a u64 bit pattern x. -/
def s64_nonneg (x : Nat) : Bool := decide (x < S64_SIGN)

/-- Modelled from the spec: NSEC_PER_SEC of the kernel time headers, which are
not part of the sources at hand; the unit period in seconds is multiplied
by 1_000_000_000. -/
def NSEC_PER_SEC : Nat := 1000000000

/-- Modelled from the spec: check_mul_overflow of the kernel overflow header,
which is not part of the sources at hand; a checked 64-bit multiplication.
The first component tells whether the exact product exceeds the 64-bit range,
the second is what the macro stores through its pointer. -/
def check_mul_overflow (a b : Nat) : Bool × Nat :=
  (decide (U64_SIZE ≤ a * b), u64_mul a b)

/-- Modelled from the spec: check_add_overflow of the kernel overflow header,
which is not part of the sources at hand; a checked 64-bit addition. -/
def check_add_overflow (a b : Nat) : Bool × Nat :=
  (decide (U64_SIZE ≤ a + b), u64_add a b)

/-- Modelled from the spec: div64_u64 of the kernel math header, which is not
part of the sources at hand; unsigned 64-bit division truncating toward
zero. -/
def div64_u64 (a b : Nat) : Nat := a / b

/-- Modelled from the spec: div_u64 of the kernel math header, which is not
part of the sources at hand; unsigned division of a u64 by a u32. -/
def div_u64 (a b : Nat) : Nat := a / b

/-! ## Data model -/

/-- The error codes returned (negated) by the source. -/
inductive errno where
  | EINVAL
  | EOVERFLOW
  | EOPNOTSUPP
deriving DecidableEq, Repr

/-- Fields of struct nft_limit_priv, the lock left out. -/
structure nft_limit_priv where
  last : Nat
  tokens : Nat
  tokens_max : Nat
  rate : Nat
  nsecs : Nat
  burst : Nat
  invert : Bool
deriving DecidableEq, Repr

/-- Fields of struct nft_limit_priv_pkts. -/
structure nft_limit_priv_pkts where
  limit : nft_limit_priv
  cost : Nat
deriving DecidableEq, Repr

/-- The attribute table tb[] after netlink parsing: an absent attribute is
none, a present one carries its decoded host-order value. -/
structure nlattr_tb where
  NFTA_LIMIT_RATE : Option Nat
  NFTA_LIMIT_UNIT : Option Nat
  NFTA_LIMIT_BURST : Option Nat
  NFTA_LIMIT_TYPE : Option Nat
  NFTA_LIMIT_FLAGS : Option Nat
deriving DecidableEq, Repr

/-- Modelled from the spec: the bit of the flags word that carries the invert
flag, NFT_LIMIT_F_INV of the uapi header, which is not part of the sources at
hand. -/
abbrev NFT_LIMIT_F_INV : Nat := 1

/-- Modelled from the spec: the mode indicator of packet-count mode,
NFT_LIMIT_PKTS of the uapi header, which is not part of the sources at
hand; the first value of the enumeration of the two modes. -/
abbrev NFT_LIMIT_PKTS : Nat := 0

/-- Modelled from the spec: the mode indicator of byte-rate mode,
NFT_LIMIT_PKT_BYTES of the uapi header, which is not part of the sources at
hand; the second value of the enumeration of the two modes. -/
abbrev NFT_LIMIT_PKT_BYTES : Nat := 1

/-- Default burst of packet-count mode. -/
abbrev NFT_LIMIT_PKT_BURST_DEFAULT : Nat := 5

/-- Every field of the state fits its C type. -/
def priv_wf (p : nft_limit_priv) : Prop :=
  p.last < U64_SIZE ∧ p.tokens < U64_SIZE ∧ p.tokens_max < U64_SIZE ∧
  p.rate < U64_SIZE ∧ p.nsecs < U64_SIZE ∧ p.burst < U32_SIZE

instance (p : nft_limit_priv) : Decidable (priv_wf p) := by
  unfold priv_wf; infer_instance

/-- A present attribute value fits in the given number of values. -/
def attr_fits (a : Option Nat) (size : Nat) : Prop :=
  match a with
  | none => True
  | some v => v < size

instance (a : Option Nat) (size : Nat) : Decidable (attr_fits a size) := by
  unfold attr_fits; cases a <;> infer_instance

/-- Every present attribute fits the type of the policy nft_limit_policy. -/
def tb_wf (tb : nlattr_tb) : Prop :=
  attr_fits tb.NFTA_LIMIT_RATE U64_SIZE ∧ attr_fits tb.NFTA_LIMIT_UNIT U64_SIZE ∧
  attr_fits tb.NFTA_LIMIT_BURST U32_SIZE ∧ attr_fits tb.NFTA_LIMIT_TYPE U32_SIZE ∧
  attr_fits tb.NFTA_LIMIT_FLAGS U32_SIZE

instance (tb : nlattr_tb) : Decidable (tb_wf tb) := by
  unfold tb_wf; infer_instance

/-- The zero-filled private area handed to the init functions. -/
def priv_zero : nft_limit_priv :=
  { last := 0, tokens := 0, tokens_max := 0, rate := 0, nsecs := 0, burst := 0,
    invert := false }

/-! ## nft_limit_eval -/

/-- Lines 35 to 37 of nft_limit_eval: the token count after refill and before
consumption, tokens + now - last in u64 arithmetic, clamped to tokens_max. -/
def nft_limit_eval_tokens (priv : nft_limit_priv) (now : Nat) : Nat :=
  let tokens := u64_sub (u64_add priv.tokens now) priv.last
  if tokens > priv.tokens_max then priv.tokens_max else tokens

/-- The function nft_limit_eval: the returned boolean and the state left
behind, with now the value read from the clock. -/
def nft_limit_eval (priv : nft_limit_priv) (cost : Nat) (now : Nat) :
    Bool × nft_limit_priv :=
  let tokens := nft_limit_eval_tokens priv now
  let priv := { priv with last := now }
  let delta := u64_sub tokens cost
  if s64_nonneg delta then
    (priv.invert, { priv with tokens := delta })
  else
    (!priv.invert, { priv with tokens := tokens })

/-! ## nft_limit_init and its wrappers -/

/-- Lines 71 to 75 of nft_limit_init: the burst once the attribute has been
read and the packet-count default applied; old is the burst found in the
private area. -/
def nft_limit_init_burst (old : Nat) (attr : Option Nat) (pkts : Bool) : Nat :=
  let burst :=
    match attr with
    | some b => b
    | none => old
  if pkts && burst == 0 then NFT_LIMIT_PKT_BURST_DEFAULT else burst

/-- Lines 101 to 106 of nft_limit_init: the invert flag once the flags
attribute has been read; old is the flag found in the private area. -/
def nft_limit_init_invert (old : Bool) (attr : Option Nat) : Bool :=
  match attr with
  | some flags => if flags &&& NFT_LIMIT_F_INV ≠ 0 then true else old
  | none => old

/-- The function nft_limit_init. The fields written through priv are carried
as local values until the final state is built; a field the function does not
write keeps the value found in priv. An error return yields no state: the
callers discard the partly written private area. -/
def nft_limit_init (priv : nft_limit_priv) (tb : nlattr_tb) (pkts : Bool)
    (now : Nat) : Except errno nft_limit_priv :=
  match tb.NFTA_LIMIT_RATE, tb.NFTA_LIMIT_UNIT with
  | some rate, some unit =>
    -- priv->rate = rate
    if rate = 0 then
      Except.error errno.EINVAL
    else
      -- check_mul_overflow(unit, NSEC_PER_SEC, &priv->nsecs)
      let r := check_mul_overflow unit NSEC_PER_SEC
      let nsecs := r.2
      if r.1 then
        Except.error errno.EOVERFLOW
      else
        let burst := nft_limit_init_burst priv.burst tb.NFTA_LIMIT_BURST pkts
        -- check_add_overflow(priv->rate, priv->burst, &rate_with_burst)
        let rb := check_add_overflow rate burst
        let rate_with_burst := rb.2
        if rb.1 then
          Except.error errno.EOVERFLOW
        else
          let tokens : Except errno Nat :=
            if pkts then
              let tmp := div64_u64 nsecs rate
              let rt := check_mul_overflow tmp burst
              if rt.1 then Except.error errno.EOVERFLOW else Except.ok rt.2
            else
              let rt := check_mul_overflow nsecs rate_with_burst
              if rt.1 then Except.error errno.EOVERFLOW
              else Except.ok (div64_u64 rt.2 rate)
          match tokens with
          | Except.error err => Except.error err
          | Except.ok tokens =>
            Except.ok
              { last := now, tokens := tokens, tokens_max := tokens, rate := rate,
                nsecs := nsecs, burst := burst,
                invert := nft_limit_init_invert priv.invert tb.NFTA_LIMIT_FLAGS }
  | _, _ => Except.error errno.EINVAL

/-- The function nft_limit_pkts_init. -/
def nft_limit_pkts_init (priv : nft_limit_priv_pkts) (tb : nlattr_tb)
    (now : Nat) : Except errno nft_limit_priv_pkts :=
  match nft_limit_init priv.limit tb true now with
  | Except.error err => Except.error err
  | Except.ok limit =>
    Except.ok { limit := limit, cost := div64_u64 limit.nsecs limit.rate }

/-- The function nft_limit_obj_pkts_init. -/
def nft_limit_obj_pkts_init (priv : nft_limit_priv_pkts) (tb : nlattr_tb)
    (now : Nat) : Except errno nft_limit_priv_pkts :=
  match nft_limit_init priv.limit tb true now with
  | Except.error err => Except.error err
  | Except.ok limit =>
    Except.ok { limit := limit, cost := div64_u64 limit.nsecs limit.rate }

/-- The function nft_limit_bytes_init. -/
def nft_limit_bytes_init (priv : nft_limit_priv) (tb : nlattr_tb)
    (now : Nat) : Except errno nft_limit_priv :=
  nft_limit_init priv tb false now

/-- The function nft_limit_obj_bytes_init. -/
def nft_limit_obj_bytes_init (priv : nft_limit_priv) (tb : nlattr_tb)
    (now : Nat) : Except errno nft_limit_priv :=
  nft_limit_init priv tb false now

/-! ## Cost strategies -/

/-- The cost computed by nft_limit_bytes_eval and nft_limit_obj_bytes_eval
for a packet of length len: the product is a u64 product. -/
def nft_limit_bytes_cost (priv : nft_limit_priv) (len : Nat) : Nat :=
  div64_u64 (u64_mul priv.nsecs len) priv.rate

/-- The function nft_limit_pkts_eval: the state left behind and the verdict
code of the registers, set to the break code when the limiter returns true. -/
def nft_limit_pkts_eval (NFT_BREAK : Int) (priv : nft_limit_priv_pkts)
    (verdict_code : Int) (now : Nat) : nft_limit_priv_pkts × Int :=
  let r := nft_limit_eval priv.limit priv.cost now
  ({ priv with limit := r.2 }, if r.1 then NFT_BREAK else verdict_code)

/-- The function nft_limit_obj_pkts_eval. -/
def nft_limit_obj_pkts_eval (NFT_BREAK : Int) (priv : nft_limit_priv_pkts)
    (verdict_code : Int) (now : Nat) : nft_limit_priv_pkts × Int :=
  let r := nft_limit_eval priv.limit priv.cost now
  ({ priv with limit := r.2 }, if r.1 then NFT_BREAK else verdict_code)

/-- The function nft_limit_bytes_eval, len the length of the packet. -/
def nft_limit_bytes_eval (NFT_BREAK : Int) (priv : nft_limit_priv)
    (len : Nat) (verdict_code : Int) (now : Nat) : nft_limit_priv × Int :=
  let cost := nft_limit_bytes_cost priv len
  let r := nft_limit_eval priv cost now
  (r.2, if r.1 then NFT_BREAK else verdict_code)

/-- The function nft_limit_obj_bytes_eval, len the length of the packet. -/
def nft_limit_obj_bytes_eval (NFT_BREAK : Int) (priv : nft_limit_priv)
    (len : Nat) (verdict_code : Int) (now : Nat) : nft_limit_priv × Int :=
  let cost := nft_limit_bytes_cost priv len
  let r := nft_limit_eval priv cost now
  (r.2, if r.1 then NFT_BREAK else verdict_code)

/-! ## Dump and selection of the operations -/

/-- The function nft_limit_dump when every nla_put succeeds (return value 0):
the attributes written to the message. A message buffer without room makes
the source return -1; the buffer is not modelled. -/
def nft_limit_dump (priv : nft_limit_priv) (type : Nat) : nlattr_tb :=
  let flags := if priv.invert then NFT_LIMIT_F_INV else 0
  let secs := div_u64 priv.nsecs NSEC_PER_SEC
  { NFTA_LIMIT_RATE := some priv.rate, NFTA_LIMIT_UNIT := some secs,
    NFTA_LIMIT_BURST := some priv.burst, NFTA_LIMIT_TYPE := some type,
    NFTA_LIMIT_FLAGS := some flags }

/-- The functions nft_limit_pkts_dump and nft_limit_obj_pkts_dump. -/
def nft_limit_pkts_dump (priv : nft_limit_priv_pkts) : nlattr_tb :=
  nft_limit_dump priv.limit NFT_LIMIT_PKTS

/-- The functions nft_limit_bytes_dump and nft_limit_obj_bytes_dump. -/
def nft_limit_bytes_dump (priv : nft_limit_priv) : nlattr_tb :=
  nft_limit_dump priv NFT_LIMIT_PKT_BYTES

/-- The two operation tables of the expression. -/
inductive nft_expr_ops where
  | nft_limit_pkts_ops
  | nft_limit_bytes_ops
deriving DecidableEq, Repr

/-- The two operation tables of the object. -/
inductive nft_object_ops where
  | nft_limit_obj_pkts_ops
  | nft_limit_obj_bytes_ops
deriving DecidableEq, Repr

/-- The function nft_limit_select_ops; an ERR_PTR return is the error. -/
def nft_limit_select_ops (tb : nlattr_tb) : Except errno nft_expr_ops :=
  match tb.NFTA_LIMIT_TYPE with
  | none => Except.ok nft_expr_ops.nft_limit_pkts_ops
  | some type =>
    if type = NFT_LIMIT_PKTS then Except.ok nft_expr_ops.nft_limit_pkts_ops
    else if type = NFT_LIMIT_PKT_BYTES then Except.ok nft_expr_ops.nft_limit_bytes_ops
    else Except.error errno.EOPNOTSUPP

/-- The function nft_limit_obj_select_ops; an ERR_PTR return is the error. -/
def nft_limit_obj_select_ops (tb : nlattr_tb) : Except errno nft_object_ops :=
  match tb.NFTA_LIMIT_TYPE with
  | none => Except.ok nft_object_ops.nft_limit_obj_pkts_ops
  | some type =>
    if type = NFT_LIMIT_PKTS then Except.ok nft_object_ops.nft_limit_obj_pkts_ops
    else if type = NFT_LIMIT_PKT_BYTES then
      Except.ok nft_object_ops.nft_limit_obj_bytes_ops
    else Except.error errno.EOPNOTSUPP

/-! ## Runs of the limiter -/

/-- A run of nft_limit_eval over a sequence of (now, cost) inputs: the
verdict returned and the state left behind at every step. -/
def nft_limit_trace (priv : nft_limit_priv) :
    List (Nat × Nat) → List (Bool × nft_limit_priv)
  | [] => []
  | (now, cost) :: rest =>
    let r := nft_limit_eval priv cost now
    r :: nft_limit_trace r.2 rest

/-- The state after k packets of the same cost, all evaluated at the same
clock value now. -/
def nft_limit_eval_repeat (priv : nft_limit_priv) (cost now : Nat) :
    Nat → nft_limit_priv
  | 0 => priv
  | k + 1 => (nft_limit_eval (nft_limit_eval_repeat priv cost now k) cost now).2

/-- The state left behind by a run of nft_limit_eval over a sequence of
(now, cost) inputs. -/
def nft_limit_final (priv : nft_limit_priv) : List (Nat × Nat) → nft_limit_priv
  | [] => priv
  | (now, cost) :: rest => nft_limit_final (nft_limit_eval priv cost now).2 rest

/-- The sum of the costs of the packets admitted (the call returns invert)
in a run of nft_limit_eval. -/
def nft_limit_admitted_cost (priv : nft_limit_priv) : List (Nat × Nat) → Nat
  | [] => 0
  | (now, cost) :: rest =>
    let r := nft_limit_eval priv cost now
    (if r.1 = priv.invert then cost else 0) + nft_limit_admitted_cost r.2 rest

/-- The number of packets admitted (the call returns invert) in a run of
nft_limit_eval. -/
def nft_limit_admitted_count (priv : nft_limit_priv) : List (Nat × Nat) → Nat
  | [] => 0
  | (now, cost) :: rest =>
    let r := nft_limit_eval priv cost now
    (if r.1 = priv.invert then 1 else 0) + nft_limit_admitted_count r.2 rest

/-- The clock values of a run do not decrease, starting from last. -/
def clock_ordered (last : Nat) : List (Nat × Nat) → Prop
  | [] => True
  | (now, _) :: rest => last ≤ now ∧ clock_ordered now rest

/-- The clock value of the final evaluation of a run, last for the empty
run. -/
def clock_final (last : Nat) : List (Nat × Nat) → Nat
  | [] => last
  | (now, _) :: rest => clock_final now rest

/-! ## The algorithm of the specification -/

/-- The evaluate operation as the specification words it, in exact integer
arithmetic: refill clamped to the capacity, then admit and subtract the cost
when the cost fits, else reject and keep the refilled count. The first
component is the raw verdict (true for rejected) XOR invert. -/
def evaluate_spec (s : nft_limit_priv) (cost now : Nat) : Bool × nft_limit_priv :=
  let tokens := min (s.tokens + (now - s.last)) s.tokens_max
  if cost ≤ tokens then
    (xor false s.invert, { s with last := now, tokens := tokens - cost })
  else
    (xor true s.invert, { s with last := now, tokens := tokens })

/-! ## Divisions that trap

The divisions of the code fault on a zero divisor. The definitions of this
section repeat the functions that divide by the rate with a division that
traps: the result none stands for a run that divided by zero. -/

/-- Modelled from the spec: div64_u64 of the kernel math header, which is not
part of the sources at hand, with the fault on a zero divisor made visible:
none when the divisor is 0, the truncated quotient otherwise. -/
def div64_u64_trap (a b : Nat) : Option Nat :=
  if b = 0 then none else some (a / b)

/-- The function nft_limit_init with trapping divisions (lines 81 and 95):
none when a division by zero is performed, the return of the function
otherwise. -/
def nft_limit_init_trap (priv : nft_limit_priv) (tb : nlattr_tb) (pkts : Bool)
    (now : Nat) : Option (Except errno nft_limit_priv) :=
  match tb.NFTA_LIMIT_RATE, tb.NFTA_LIMIT_UNIT with
  | some rate, some unit =>
    -- priv->rate = rate
    if rate = 0 then
      some (Except.error errno.EINVAL)
    else
      -- check_mul_overflow(unit, NSEC_PER_SEC, &priv->nsecs)
      let r := check_mul_overflow unit NSEC_PER_SEC
      let nsecs := r.2
      if r.1 then
        some (Except.error errno.EOVERFLOW)
      else
        let burst := nft_limit_init_burst priv.burst tb.NFTA_LIMIT_BURST pkts
        -- check_add_overflow(priv->rate, priv->burst, &rate_with_burst)
        let rb := check_add_overflow rate burst
        let rate_with_burst := rb.2
        if rb.1 then
          some (Except.error errno.EOVERFLOW)
        else
          let tokens : Option (Except errno Nat) :=
            if pkts then
              match div64_u64_trap nsecs rate with
              | none => none
              | some tmp =>
                let rt := check_mul_overflow tmp burst
                if rt.1 then some (Except.error errno.EOVERFLOW)
                else some (Except.ok rt.2)
            else
              let rt := check_mul_overflow nsecs rate_with_burst
              if rt.1 then some (Except.error errno.EOVERFLOW)
              else
                match div64_u64_trap rt.2 rate with
                | none => none
                | some tokens => some (Except.ok tokens)
          match tokens with
          | none => none
          | some (Except.error err) => some (Except.error err)
          | some (Except.ok tokens) =>
            some (Except.ok
              { last := now, tokens := tokens, tokens_max := tokens, rate := rate,
                nsecs := nsecs, burst := burst,
                invert := nft_limit_init_invert priv.invert tb.NFTA_LIMIT_FLAGS })
  | _, _ => some (Except.error errno.EINVAL)

/-- The function nft_limit_pkts_init with trapping divisions (line 167). -/
def nft_limit_pkts_init_trap (priv : nft_limit_priv_pkts) (tb : nlattr_tb)
    (now : Nat) : Option (Except errno nft_limit_priv_pkts) :=
  match nft_limit_init_trap priv.limit tb true now with
  | none => none
  | some (Except.error err) => some (Except.error err)
  | some (Except.ok limit) =>
    match div64_u64_trap limit.nsecs limit.rate with
    | none => none
    | some cost => some (Except.ok { limit := limit, cost := cost })

/-- The function nft_limit_obj_pkts_init with trapping divisions
(line 269). -/
def nft_limit_obj_pkts_init_trap (priv : nft_limit_priv_pkts) (tb : nlattr_tb)
    (now : Nat) : Option (Except errno nft_limit_priv_pkts) :=
  match nft_limit_init_trap priv.limit tb true now with
  | none => none
  | some (Except.error err) => some (Except.error err)
  | some (Except.ok limit) =>
    match div64_u64_trap limit.nsecs limit.rate with
    | none => none
    | some cost => some (Except.ok { limit := limit, cost := cost })

/-- The cost computed by nft_limit_bytes_eval and nft_limit_obj_bytes_eval
with a trapping division (lines 192 and 296). -/
def nft_limit_bytes_cost_trap (priv : nft_limit_priv) (len : Nat) : Option Nat :=
  div64_u64_trap (u64_mul priv.nsecs len) priv.rate

/-! ## Conditions of the specification -/

/-- The overflow condition of the specification for a supplied rate, unit and
burst (the burst after defaulting): the unit period in nanoseconds, the sum
of rate and burst, or the capacity multiplication of the mode exceeds the
64-bit range. All products and sums are exact. -/
def config_overflows (rate unit burst : Nat) (pkts : Bool) : Prop :=
  U64_SIZE ≤ unit * NSEC_PER_SEC ∨ U64_SIZE ≤ rate + burst ∨
  (if pkts = true then U64_SIZE ≤ (unit * NSEC_PER_SEC / rate) * burst
   else U64_SIZE ≤ unit * NSEC_PER_SEC * (rate + burst))

instance (rate unit burst : Nat) (pkts : Bool) :
    Decidable (config_overflows rate unit burst pkts) := by
  unfold config_overflows; infer_instance

/-- The capacity of the specification in exact arithmetic. -/
def capacity_exact (nsecs rate burst : Nat) (pkts : Bool) : Nat :=
  if pkts = true then (nsecs / rate) * burst else (nsecs * (rate + burst)) / rate

/-! ## Arithmetic helpers -/

theorem u64_mul_of_not_le (a b : Nat) (h : ¬ U64_SIZE ≤ a * b) : u64_mul a b = a * b := by
  unfold u64_mul; exact Nat.mod_eq_of_lt (by omega)

theorem u64_add_of_not_le (a b : Nat) (h : ¬ U64_SIZE ≤ a + b) : u64_add a b = a + b := by
  unfold u64_add; exact Nat.mod_eq_of_lt (by omega)

theorem nft_limit_init_supplied (priv : nft_limit_priv) (rate unit : Nat)
    (burst type flags : Option Nat) (pkts : Bool) (now : Nat) :
    nft_limit_init priv ⟨some rate, some unit, burst, type, flags⟩ pkts now =
      if rate = 0 then Except.error errno.EINVAL
      else if U64_SIZE ≤ unit * NSEC_PER_SEC then Except.error errno.EOVERFLOW
      else if U64_SIZE ≤ rate + nft_limit_init_burst priv.burst burst pkts then
        Except.error errno.EOVERFLOW
      else if pkts = true then
        if U64_SIZE ≤ (unit * NSEC_PER_SEC / rate) * nft_limit_init_burst priv.burst burst pkts
        then Except.error errno.EOVERFLOW
        else Except.ok
          { last := now,
            tokens := (unit * NSEC_PER_SEC / rate) * nft_limit_init_burst priv.burst burst pkts,
            tokens_max := (unit * NSEC_PER_SEC / rate) * nft_limit_init_burst priv.burst burst pkts,
            rate := rate, nsecs := unit * NSEC_PER_SEC,
            burst := nft_limit_init_burst priv.burst burst pkts,
            invert := nft_limit_init_invert priv.invert flags }
      else
        if U64_SIZE ≤ unit * NSEC_PER_SEC * (rate + nft_limit_init_burst priv.burst burst pkts)
        then Except.error errno.EOVERFLOW
        else Except.ok
          { last := now,
            tokens := unit * NSEC_PER_SEC * (rate + nft_limit_init_burst priv.burst burst pkts) / rate,
            tokens_max := unit * NSEC_PER_SEC * (rate + nft_limit_init_burst priv.burst burst pkts) / rate,
            rate := rate, nsecs := unit * NSEC_PER_SEC,
            burst := nft_limit_init_burst priv.burst burst pkts,
            invert := nft_limit_init_invert priv.invert flags } := by
  simp only [nft_limit_init]
  generalize nft_limit_init_burst priv.burst burst pkts = b
  generalize nft_limit_init_invert priv.invert flags = inv
  by_cases h0 : rate = 0
  · rw [if_pos h0, if_pos h0]
  rw [if_neg h0, if_neg h0]
  by_cases h1 : U64_SIZE ≤ unit * NSEC_PER_SEC
  · simp only [check_mul_overflow, h1, decide_True, if_true]
  have e1 := u64_mul_of_not_le _ _ h1
  simp only [check_mul_overflow, check_add_overflow, div64_u64, h1, e1, decide_False, decide_eq_true_eq,
    Bool.false_eq_true, if_false]
  by_cases h2 : U64_SIZE ≤ rate + b
  · rw [if_pos h2, if_pos h2]
  rw [if_neg h2, if_neg h2, u64_add_of_not_le _ _ h2]
  cases pkts
  · simp only [Bool.false_eq_true, if_false]
    by_cases h3 : U64_SIZE ≤ unit * NSEC_PER_SEC * (rate + b)
    · rw [if_pos h3, if_pos h3]
    · rw [if_neg h3, if_neg h3, u64_mul_of_not_le _ _ h3]
  · simp only [if_true]
    by_cases h3 : U64_SIZE ≤ unit * NSEC_PER_SEC / rate * b
    · rw [if_pos h3, if_pos h3]
    · rw [if_neg h3, if_neg h3, u64_mul_of_not_le _ _ h3]

theorem nft_limit_init_ok_inv (priv : nft_limit_priv) (tb : nlattr_tb) (pkts : Bool)
    (now : Nat) (s : nft_limit_priv)
    (h : nft_limit_init priv tb pkts now = Except.ok s) :
    ∃ rate unit, tb.NFTA_LIMIT_RATE = some rate ∧ tb.NFTA_LIMIT_UNIT = some unit ∧
      0 < rate ∧
      ¬ config_overflows rate unit
        (nft_limit_init_burst priv.burst tb.NFTA_LIMIT_BURST pkts) pkts ∧
      s = { last := now,
            tokens := capacity_exact (unit * NSEC_PER_SEC) rate
              (nft_limit_init_burst priv.burst tb.NFTA_LIMIT_BURST pkts) pkts,
            tokens_max := capacity_exact (unit * NSEC_PER_SEC) rate
              (nft_limit_init_burst priv.burst tb.NFTA_LIMIT_BURST pkts) pkts,
            rate := rate, nsecs := unit * NSEC_PER_SEC,
            burst := nft_limit_init_burst priv.burst tb.NFTA_LIMIT_BURST pkts,
            invert := nft_limit_init_invert priv.invert tb.NFTA_LIMIT_FLAGS } := by
  obtain ⟨orate, ounit, burst, type, flags⟩ := tb
  rcases orate with _ | rate
  · simp [nft_limit_init] at h
  rcases ounit with _ | unit
  · simp [nft_limit_init] at h
  rw [nft_limit_init_supplied] at h
  refine ⟨rate, unit, rfl, rfl, ?_⟩
  simp only [config_overflows, capacity_exact]
  generalize nft_limit_init_burst priv.burst burst pkts = b at h ⊢
  by_cases h0 : rate = 0
  · rw [if_pos h0] at h; cases h
  rw [if_neg h0] at h
  by_cases h1 : U64_SIZE ≤ unit * NSEC_PER_SEC
  · rw [if_pos h1] at h; cases h
  rw [if_neg h1] at h
  by_cases h2 : U64_SIZE ≤ rate + b
  · rw [if_pos h2] at h; cases h
  rw [if_neg h2] at h
  cases pkts
  · simp only [Bool.false_eq_true, if_false] at h ⊢
    by_cases h3 : U64_SIZE ≤ unit * NSEC_PER_SEC * (rate + b)
    · rw [if_pos h3] at h; cases h
    rw [if_neg h3] at h
    refine ⟨Nat.pos_of_ne_zero h0, ?_, ?_⟩
    · rintro (ho | ho | ho) <;> contradiction
    · injection h with h; exact h.symm
  · simp only [if_true] at h ⊢
    by_cases h3 : U64_SIZE ≤ unit * NSEC_PER_SEC / rate * b
    · rw [if_pos h3] at h; cases h
    rw [if_neg h3] at h
    refine ⟨Nat.pos_of_ne_zero h0, ?_, ?_⟩
    · rintro (ho | ho | ho) <;> contradiction
    · injection h with h; exact h.symm

/-! ## Construction of the bucket -/

/-- C1: with rate > 0 and both rate and unit supplied, nft_limit_init fails
with -EOVERFLOW (and yields no state) whenever the unit period in nanoseconds,
rate + burst (burst after defaulting) or the capacity multiplication of the
mode exceeds the 64-bit range, and succeeds when none of them does. -/
theorem nft_limit_init_overflow_iff (priv : nft_limit_priv) (rate unit : Nat)
    (burst type flags : Option Nat) (pkts : Bool) (now : Nat) (hrate : 0 < rate) :
    (config_overflows rate unit (nft_limit_init_burst priv.burst burst pkts) pkts →
      nft_limit_init priv ⟨some rate, some unit, burst, type, flags⟩ pkts now =
        Except.error errno.EOVERFLOW) ∧
    (¬ config_overflows rate unit (nft_limit_init_burst priv.burst burst pkts) pkts →
      ∃ s, nft_limit_init priv ⟨some rate, some unit, burst, type, flags⟩ pkts now =
        Except.ok s) := by
  have h0 : ¬ rate = 0 := by omega
  rw [nft_limit_init_supplied, if_neg h0]
  unfold config_overflows
  generalize nft_limit_init_burst priv.burst burst pkts = b
  by_cases h1 : U64_SIZE ≤ unit * NSEC_PER_SEC
  · rw [if_pos h1]
    exact ⟨fun _ => rfl, fun hn => absurd (Or.inl h1) hn⟩
  rw [if_neg h1]
  by_cases h2 : U64_SIZE ≤ rate + b
  · rw [if_pos h2]
    exact ⟨fun _ => rfl, fun hn => absurd (Or.inr (Or.inl h2)) hn⟩
  rw [if_neg h2]
  cases pkts
  · simp only [Bool.false_eq_true, if_false]
    by_cases h3 : U64_SIZE ≤ unit * NSEC_PER_SEC * (rate + b)
    · rw [if_pos h3]
      exact ⟨fun _ => rfl, fun hn => absurd (Or.inr (Or.inr h3)) hn⟩
    · rw [if_neg h3]
      exact ⟨fun ho => by rcases ho with ho | ho | ho <;> contradiction,
        fun _ => ⟨_, rfl⟩⟩
  · simp only [if_true]
    by_cases h3 : U64_SIZE ≤ unit * NSEC_PER_SEC / rate * b
    · rw [if_pos h3]
      exact ⟨fun _ => rfl, fun hn => absurd (Or.inr (Or.inr h3)) hn⟩
    · rw [if_neg h3]
      exact ⟨fun ho => by rcases ho with ho | ho | ho <;> contradiction,
        fun _ => ⟨_, rfl⟩⟩

/-- Witness of C1: rate 10 per second with the default burst does not
overflow and the construction succeeds. -/
theorem nft_limit_init_overflow_iff_witness :
    0 < 10 ∧
    ((config_overflows 10 1 (nft_limit_init_burst priv_zero.burst none true) true →
      nft_limit_init priv_zero ⟨some 10, some 1, none, none, none⟩ true 0 =
        Except.error errno.EOVERFLOW) ∧
    (¬ config_overflows 10 1 (nft_limit_init_burst priv_zero.burst none true) true →
      ∃ s, nft_limit_init priv_zero ⟨some 10, some 1, none, none, none⟩ true 0 =
        Except.ok s)) :=
  ⟨by decide, nft_limit_init_overflow_iff priv_zero 10 1 none none none true 0 (by decide)⟩


/-- C2: on success of nft_limit_init the state has nsecs = unit * 1_000_000_000,
tokens = tokens_max, and tokens_max = (nsecs / rate) * burst in packet-count
mode or (nsecs * (rate + burst)) / rate in byte-rate mode, as exact natural
numbers that fit 64 bits; and in packet-count mode both nft_limit_pkts_init and
nft_limit_obj_pkts_init succeed with that state and cost = nsecs / rate. -/
theorem nft_limit_init_state (priv : nft_limit_priv) (tb : nlattr_tb) (pkts : Bool)
    (now : Nat) (s : nft_limit_priv) (cost0 : Nat)
    (h : nft_limit_init priv tb pkts now = Except.ok s) :
    (∃ rate unit, tb.NFTA_LIMIT_RATE = some rate ∧ tb.NFTA_LIMIT_UNIT = some unit ∧
      s.rate = rate ∧ s.nsecs = unit * NSEC_PER_SEC) ∧
    s.tokens = s.tokens_max ∧
    (pkts = true → s.tokens_max = (s.nsecs / s.rate) * s.burst) ∧
    (pkts = false → s.tokens_max = (s.nsecs * (s.rate + s.burst)) / s.rate) ∧
    s.nsecs < U64_SIZE ∧ s.tokens_max < U64_SIZE ∧
    (pkts = true →
      nft_limit_pkts_init ⟨priv, cost0⟩ tb now = Except.ok ⟨s, s.nsecs / s.rate⟩ ∧
      nft_limit_obj_pkts_init ⟨priv, cost0⟩ tb now = Except.ok ⟨s, s.nsecs / s.rate⟩) := by
  obtain ⟨rate, unit, hr, hu, hpos, hno, hs⟩ := nft_limit_init_ok_inv priv tb pkts now s h
  have hn1 : ¬ U64_SIZE ≤ unit * NSEC_PER_SEC := fun hc => hno (Or.inl hc)
  refine ⟨⟨rate, unit, hr, hu, by rw [hs], by rw [hs]⟩, by rw [hs], ?_, ?_, ?_, ?_, ?_⟩
  · intro hp; rw [hs]; simp only [capacity_exact, hp, if_true]
  · intro hp; rw [hs]; simp only [capacity_exact, hp, Bool.false_eq_true, if_false]
  · rw [hs]; exact Nat.lt_of_not_le hn1
  · rw [hs]
    cases pkts
    · have h3 : ¬ U64_SIZE ≤ unit * NSEC_PER_SEC * (rate +
          nft_limit_init_burst priv.burst tb.NFTA_LIMIT_BURST false) := by
        intro hc; apply hno; right; right
        simpa using hc
      simp only [capacity_exact, Bool.false_eq_true, if_false]
      exact Nat.lt_of_le_of_lt (Nat.div_le_self _ _) (Nat.lt_of_not_le h3)
    · have h3 : ¬ U64_SIZE ≤ unit * NSEC_PER_SEC / rate *
          nft_limit_init_burst priv.burst tb.NFTA_LIMIT_BURST true := by
        intro hc; apply hno; right; right
        simpa using hc
      simp only [capacity_exact, if_true]
      exact Nat.lt_of_not_le h3
  · intro hp
    subst hp
    simp only [nft_limit_pkts_init, nft_limit_obj_pkts_init, h, div64_u64, and_self]

/-- Witness of C2: the packet-count configuration rate 10, unit 1, burst 0. -/
theorem nft_limit_init_state_witness :
    nft_limit_init priv_zero ⟨some 10, some 1, some 0, none, none⟩ true 7 =
      Except.ok ⟨7, 500000000, 500000000, 10, 1000000000, 5, false⟩ ∧
    nft_limit_pkts_init ⟨priv_zero, 0⟩ ⟨some 10, some 1, some 0, none, none⟩ 7 =
      Except.ok ⟨⟨7, 500000000, 500000000, 10, 1000000000, 5, false⟩, 100000000⟩ :=
  have h : nft_limit_init priv_zero ⟨some 10, some 1, some 0, none, none⟩ true 7 =
      Except.ok ⟨7, 500000000, 500000000, 10, 1000000000, 5, false⟩ := rfl
  ⟨h, ((nft_limit_init_state priv_zero ⟨some 10, some 1, some 0, none, none⟩ true 7
      ⟨7, 500000000, 500000000, 10, 1000000000, 5, false⟩ 0 h).2.2.2.2.2.2 rfl).1⟩


/-! ## The refill-and-consume step -/

theorem u64_refill_exact (tokens last now : Nat) (hnow : last ≤ now)
    (hno : tokens + (now - last) < U64_SIZE) :
    u64_sub (u64_add tokens now) last = tokens + (now - last) := by
  simp only [u64_sub, u64_add, U64_SIZE] at hno ⊢
  omega

theorem nft_limit_eval_tokens_le_max (s : nft_limit_priv) (now : Nat) :
    nft_limit_eval_tokens s now ≤ s.tokens_max := by
  unfold nft_limit_eval_tokens
  simp only
  split_ifs with hgt
  · exact Nat.le_refl _
  · omega

theorem nft_limit_eval_tokens_exact (s : nft_limit_priv) (now : Nat)
    (hnow : s.last ≤ now) (hno : s.tokens + (now - s.last) < U64_SIZE) :
    nft_limit_eval_tokens s now = min (s.tokens + (now - s.last)) s.tokens_max := by
  unfold nft_limit_eval_tokens
  simp only [u64_refill_exact s.tokens s.last now hnow hno]
  split_ifs with hgt
  · omega
  · omega

theorem u64_sub_of_le (a b : Nat) (ha : a < U64_SIZE) (hba : b ≤ a) :
    u64_sub a b = a - b := by
  simp only [u64_sub, U64_SIZE] at ha ⊢
  omega

theorem u64_sub_of_lt (a b : Nat) (hb : b < U64_SIZE) (hab : a < b) :
    u64_sub a b = a + U64_SIZE - b := by
  simp only [u64_sub, U64_SIZE] at hb ⊢
  omega

theorem nft_limit_eval_exact (s : nft_limit_priv) (cost now : Nat)
    (hnow : s.last ≤ now)
    (hmax : s.tokens_max < S64_SIGN) (hcost : cost < S64_SIGN)
    (hno : s.tokens + (now - s.last) < U64_SIZE) :
    nft_limit_eval s cost now = evaluate_spec s cost now := by
  have hT := nft_limit_eval_tokens_exact s now hnow hno
  have hle := nft_limit_eval_tokens_le_max s now
  unfold nft_limit_eval evaluate_spec
  simp only [← hT]
  generalize nft_limit_eval_tokens s now = T at hle ⊢
  have hT64 : T < U64_SIZE := by simp only [S64_SIGN, U64_SIZE] at hmax ⊢; omega
  by_cases hc : cost ≤ T
  · have hd : u64_sub T cost = T - cost := u64_sub_of_le T cost hT64 hc
    have hn : s64_nonneg (T - cost) = true := by
      simp only [s64_nonneg, S64_SIGN, decide_eq_true_eq] at hmax ⊢; omega
    simp only [hd, hn, if_true, hc, Bool.false_xor]
  · have hc2 : T < cost := Nat.lt_of_not_le hc
    have hd : u64_sub T cost = T + U64_SIZE - cost :=
      u64_sub_of_lt T cost (by simp only [S64_SIGN, U64_SIZE] at hcost ⊢; omega) hc2
    have hn : s64_nonneg (T + U64_SIZE - cost) = false := by
      simp only [s64_nonneg, S64_SIGN, U64_SIZE, decide_eq_false_iff_not] at hcost ⊢; omega
    simp only [hd, hn, Bool.false_eq_true, if_false, hc, Bool.true_xor]

/-- C5: under now >= last, tokens <= tokens_max < 2^63, cost < 2^63 and
tokens + (now - last) < 2^64, nft_limit_eval computes exactly the reference
algorithm of the specification: the refill clamped to the capacity, the cost
subtracted and the packet admitted when the cost fits, the refilled count kept
and the packet rejected otherwise, last set to now, and the returned boolean
the raw rejection XOR invert. -/
theorem nft_limit_eval_refines_spec (s : nft_limit_priv) (cost now : Nat)
    (hnow : s.last ≤ now) (_htok : s.tokens ≤ s.tokens_max)
    (hmax : s.tokens_max < 2 ^ 63) (hcost : cost < 2 ^ 63)
    (hno : s.tokens + (now - s.last) < 2 ^ 64) :
    nft_limit_eval s cost now = evaluate_spec s cost now :=
  nft_limit_eval_exact s cost now hnow (by simpa [S64_SIGN] using hmax)
    (by simpa [S64_SIGN] using hcost) (by simpa [U64_SIZE] using hno)

/-- Witness of C5: a half-full bucket refilled for 30 ns admits a cost of 50
and rejects a cost of 200. -/
theorem nft_limit_eval_refines_spec_witness :
    nft_limit_eval ⟨100, 40, 80, 10, 1000, 5, false⟩ 50 130 =
      evaluate_spec ⟨100, 40, 80, 10, 1000, 5, false⟩ 50 130 ∧
    nft_limit_eval ⟨100, 40, 80, 10, 1000, 5, false⟩ 50 130 =
      (false, ⟨130, 20, 80, 10, 1000, 5, false⟩) ∧
    nft_limit_eval ⟨100, 40, 80, 10, 1000, 5, false⟩ 200 130 =
      (true, ⟨130, 70, 80, 10, 1000, 5, false⟩) :=
  ⟨nft_limit_eval_refines_spec ⟨100, 40, 80, 10, 1000, 5, false⟩ 50 130
    (by decide) (by decide) (by norm_num) (by norm_num) (by norm_num), rfl, rfl⟩


/-- C6: when nft_limit_eval returns !invert (raw verdict rejected), the token
count it stores is the refilled count of that call, the minimum of
tokens + now - last (in u64 arithmetic) and tokens_max: the cost has not been
subtracted. -/
theorem nft_limit_eval_rejected_keeps_tokens (s : nft_limit_priv) (cost now : Nat)
    (hrej : (nft_limit_eval s cost now).1 = !s.invert) :
    (nft_limit_eval s cost now).2.tokens = nft_limit_eval_tokens s now ∧
    nft_limit_eval_tokens s now =
      min (u64_sub (u64_add s.tokens now) s.last) s.tokens_max := by
  refine ⟨?_, ?_⟩
  · unfold nft_limit_eval at hrej ⊢
    simp only at hrej ⊢
    split_ifs at hrej ⊢ with hd
    · simp only at hrej
      cases hinv : s.invert <;> rw [hinv] at hrej <;> cases hrej
    · rfl
  · unfold nft_limit_eval_tokens
    simp only
    split_ifs with hgt
    · omega
    · omega

/-- Witness of C6: an empty bucket rejects a cost of 50 after 30 ns and keeps
the 30 refilled tokens. -/
theorem nft_limit_eval_rejected_keeps_tokens_witness :
    (nft_limit_eval ⟨100, 0, 80, 10, 1000, 5, false⟩ 50 130).2.tokens = 30 ∧
    ((nft_limit_eval ⟨100, 0, 80, 10, 1000, 5, false⟩ 50 130).2.tokens =
        nft_limit_eval_tokens ⟨100, 0, 80, 10, 1000, 5, false⟩ 130 ∧
      nft_limit_eval_tokens ⟨100, 0, 80, 10, 1000, 5, false⟩ 130 =
        min (u64_sub (u64_add 0 130) 100) 80) :=
  ⟨rfl, nft_limit_eval_rejected_keeps_tokens ⟨100, 0, 80, 10, 1000, 5, false⟩ 50 130 rfl⟩

theorem nft_limit_eval_flip_invert (s : nft_limit_priv) (cost now : Nat) :
    nft_limit_eval { s with invert := !s.invert } cost now =
      (!(nft_limit_eval s cost now).1,
        { (nft_limit_eval s cost now).2 with
          invert := !(nft_limit_eval s cost now).2.invert }) := by
  unfold nft_limit_eval nft_limit_eval_tokens
  simp only
  split_ifs <;> rfl

theorem nft_limit_trace_flip_invert (inputs : List (Nat × Nat)) :
    ∀ s : nft_limit_priv,
      nft_limit_trace { s with invert := !s.invert } inputs =
        (nft_limit_trace s inputs).map
          (fun r => (!r.1, { r.2 with invert := !r.2.invert })) := by
  induction inputs with
  | nil => intro s; rfl
  | cons x rest ih =>
    intro s
    obtain ⟨now, cost⟩ := x
    simp only [nft_limit_trace, List.map_cons]
    rw [nft_limit_eval_flip_invert]
    simp only
    rw [ih (nft_limit_eval s cost now).2]

/-- C7: two states that differ only in the invert flag, run through
nft_limit_eval on the same sequence of (now, cost) inputs, pass through the
same tokens and last values at every step, and the verdict returned at each
step with invert = true is the negation of the one returned with
invert = false. -/
theorem nft_limit_trace_invert (s : nft_limit_priv) (inputs : List (Nat × Nat)) :
    (nft_limit_trace { s with invert := true } inputs).map
        (fun r => (r.2.tokens, r.2.last)) =
      (nft_limit_trace { s with invert := false } inputs).map
        (fun r => (r.2.tokens, r.2.last)) ∧
    (nft_limit_trace { s with invert := true } inputs).map (fun r => r.1) =
      (nft_limit_trace { s with invert := false } inputs).map (fun r => !r.1) := by
  have h := nft_limit_trace_flip_invert inputs { s with invert := false }
  simp only [Bool.not_false] at h
  rw [h]
  simp only [List.map_map]
  exact ⟨rfl, rfl⟩


theorem nft_limit_eval_tokens_mono (s : nft_limit_priv) (now1 now2 : Nat)
    (h1 : s.last ≤ now1) (h12 : now1 ≤ now2)
    (hno : s.tokens + (now2 - s.last) < U64_SIZE) :
    nft_limit_eval_tokens s now1 ≤ nft_limit_eval_tokens s now2 := by
  rw [nft_limit_eval_tokens_exact s now1 h1 (by omega),
    nft_limit_eval_tokens_exact s now2 (by omega) hno]
  omega

/-- C8, the claim as stated fails: the full bucket built for 1 byte per
second holds 1_000_000_000 tokens after refill at now1 = last, and 0 tokens at
the later clock value now2 = 2^64 - 1_000_000_000, where tokens + now2 - last
wraps around. -/
theorem nft_limit_eval_tokens_wraps :
    nft_limit_init priv_zero ⟨some 1, some 1, none, some 1, none⟩ false 0 =
      Except.ok ⟨0, 1000000000, 1000000000, 1, 1000000000, 0, false⟩ ∧
    (0 : Nat) ≤ 18446744072709551616 ∧ 18446744072709551616 < U64_SIZE ∧
    nft_limit_eval_tokens ⟨0, 1000000000, 1000000000, 1, 1000000000, 0, false⟩ 0 =
      1000000000 ∧
    nft_limit_eval_tokens ⟨0, 1000000000, 1000000000, 1, 1000000000, 0, false⟩
      18446744072709551616 = 0 ∧
    ¬ (nft_limit_eval_tokens ⟨0, 1000000000, 1000000000, 1, 1000000000, 0, false⟩ 0 ≤
       nft_limit_eval_tokens ⟨0, 1000000000, 1000000000, 1, 1000000000, 0, false⟩
         18446744072709551616) :=
  ⟨rfl, by decide, by decide, rfl, rfl, by decide⟩

/-- C8, amended: for two clock values last <= now1 <= now2 such that
tokens + (now2 - last) < 2^64 (the refill does not wrap), the token count
after refill and before consumption at now1 is at most the one at now2, and
both are at most tokens_max. -/
theorem nft_limit_eval_tokens_monotone (s : nft_limit_priv) (now1 now2 : Nat)
    (h1 : s.last ≤ now1) (h12 : now1 ≤ now2)
    (hno : s.tokens + (now2 - s.last) < 2 ^ 64) :
    nft_limit_eval_tokens s now1 ≤ nft_limit_eval_tokens s now2 ∧
    nft_limit_eval_tokens s now1 ≤ s.tokens_max ∧
    nft_limit_eval_tokens s now2 ≤ s.tokens_max :=
  ⟨nft_limit_eval_tokens_mono s now1 now2 h1 h12 (by simpa [U64_SIZE] using hno),
    nft_limit_eval_tokens_le_max s now1, nft_limit_eval_tokens_le_max s now2⟩

/-- Witness of C8 amended: a bucket holding 40 of 80 tokens, 10 ns and 30 ns
after the last evaluation. -/
theorem nft_limit_eval_tokens_monotone_witness :
    nft_limit_eval_tokens ⟨100, 40, 80, 10, 1000, 5, false⟩ 110 = 50 ∧
    nft_limit_eval_tokens ⟨100, 40, 80, 10, 1000, 5, false⟩ 130 = 70 ∧
    (nft_limit_eval_tokens ⟨100, 40, 80, 10, 1000, 5, false⟩ 110 ≤
        nft_limit_eval_tokens ⟨100, 40, 80, 10, 1000, 5, false⟩ 130 ∧
      nft_limit_eval_tokens ⟨100, 40, 80, 10, 1000, 5, false⟩ 110 ≤ 80 ∧
      nft_limit_eval_tokens ⟨100, 40, 80, 10, 1000, 5, false⟩ 130 ≤ 80) :=
  ⟨rfl, rfl, nft_limit_eval_tokens_monotone ⟨100, 40, 80, 10, 1000, 5, false⟩ 110 130
    (by decide) (by decide) (by norm_num)⟩

theorem nft_limit_eval_keeps_le_max (s : nft_limit_priv) (cost now : Nat)
    (hmax : s.tokens_max < U64_SIZE) (hcost : cost ≤ S64_SIGN) :
    (nft_limit_eval s cost now).2.tokens ≤ (nft_limit_eval s cost now).2.tokens_max := by
  have hle := nft_limit_eval_tokens_le_max s now
  unfold nft_limit_eval
  simp only
  generalize nft_limit_eval_tokens s now = T at hle ⊢
  split_ifs with hd
  · simp only
    simp only [s64_nonneg, u64_sub, S64_SIGN, U64_SIZE, decide_eq_true_eq] at hd hmax hcost ⊢
    omega
  · exact hle

/-- C3, the code at the failing input: the byte-rate bucket built for 1 byte
per week has tokens = tokens_max = 604_800_000_000_000; a packet of 20000
bytes costs 12_096_000_000_000_000_000 >= 2^63, the difference wraps to a
non-negative s64, the packet is admitted and the stored token count
6_351_348_873_709_551_616 exceeds tokens_max. -/
theorem nft_limit_eval_exceeds_tokens_max :
    nft_limit_bytes_init priv_zero ⟨some 1, some 604800, none, some 1, none⟩ 0 =
      Except.ok ⟨0, 604800000000000, 604800000000000, 1, 604800000000000, 0, false⟩ ∧
    nft_limit_bytes_cost
      ⟨0, 604800000000000, 604800000000000, 1, 604800000000000, 0, false⟩ 20000 =
      12096000000000000000 ∧
    nft_limit_eval ⟨0, 604800000000000, 604800000000000, 1, 604800000000000, 0, false⟩
      12096000000000000000 0 =
      (false, ⟨0, 6351348873709551616, 604800000000000, 1, 604800000000000, 0, false⟩) ∧
    ¬ ((6351348873709551616 : Nat) ≤ 604800000000000) :=
  ⟨rfl, rfl, rfl, by decide⟩

/-- C4, the code at two failing inputs. First, the bucket built for 1 byte
per week and a cost of 12_096_000_000_000_000_000: the refilled count is
604_800_000_000_000, less than the cost, and the packet is admitted (the call
returns invert). Second, the packet-count bucket built for rate 1, unit
1_000_000_000 s, burst 11: the refilled count 11 * 10^18 is at least the cost
10^18, and the packet is rejected (the call returns !invert). -/
theorem nft_limit_eval_verdict_mismatch :
    nft_limit_eval_tokens
      ⟨0, 604800000000000, 604800000000000, 1, 604800000000000, 0, false⟩ 0 =
      604800000000000 ∧
    ¬ ((12096000000000000000 : Nat) ≤ 604800000000000) ∧
    (nft_limit_eval ⟨0, 604800000000000, 604800000000000, 1, 604800000000000, 0, false⟩
      12096000000000000000 0).1 = false ∧
    nft_limit_pkts_init ⟨priv_zero, 0⟩ ⟨some 1, some 1000000000, some 11, none, none⟩ 0 =
      Except.ok ⟨⟨0, 11000000000000000000, 11000000000000000000, 1,
        1000000000000000000, 11, false⟩, 1000000000000000000⟩ ∧
    nft_limit_eval_tokens
      ⟨0, 11000000000000000000, 11000000000000000000, 1, 1000000000000000000, 11, false⟩
      0 = 11000000000000000000 ∧
    (1000000000000000000 : Nat) ≤ 11000000000000000000 ∧
    (nft_limit_eval
      ⟨0, 11000000000000000000, 11000000000000000000, 1, 1000000000000000000, 11, false⟩
      1000000000000000000 0).1 = true :=
  ⟨rfl, by decide, rfl, rfl, rfl, by decide, rfl⟩


theorem nft_limit_init_burst_pos (old : Nat) (attr : Option Nat) :
    0 < nft_limit_init_burst old attr true := by
  unfold nft_limit_init_burst
  simp only [Bool.true_and, beq_iff_eq]
  split_ifs with hz
  · decide
  · exact Nat.pos_of_ne_zero hz

/-- C9, the claim as stated fails: the packet-count configuration rate
2_000_000_000, unit 1 is accepted by nft_limit_init and its tokens_max
is 0. -/
theorem nft_limit_init_zero_capacity :
    0 < 2000000000 ∧ 0 < 1 ∧
    nft_limit_init priv_zero ⟨some 2000000000, some 1, none, none, none⟩ true 0 =
      Except.ok ⟨0, 0, 0, 2000000000, 1000000000, 5, false⟩ ∧
    ¬ (0 < (⟨0, 0, 0, 2000000000, 1000000000, 5, false⟩ : nft_limit_priv).tokens_max) :=
  ⟨by decide, by decide, rfl, by decide⟩

/-- C9, amended: for rate > 0 and unit > 0, when nft_limit_init succeeds the
state has tokens = tokens_max; 0 < tokens_max holds in byte-rate mode, and in
packet-count mode exactly when rate <= unit * 1_000_000_000. -/
theorem nft_limit_init_capacity_pos (priv : nft_limit_priv) (rate unit : Nat)
    (burst type flags : Option Nat) (pkts : Bool) (now : Nat) (s : nft_limit_priv)
    (hrate : 0 < rate) (hunit : 0 < unit)
    (h : nft_limit_init priv ⟨some rate, some unit, burst, type, flags⟩ pkts now =
      Except.ok s) :
    s.tokens = s.tokens_max ∧
    (pkts = false → 0 < s.tokens_max) ∧
    (pkts = true → (0 < s.tokens_max ↔ rate ≤ unit * NSEC_PER_SEC)) := by
  obtain ⟨rate1, unit1, hr, hu, _, _, hs⟩ := nft_limit_init_ok_inv priv _ pkts now s h
  simp only [Option.some.injEq] at hr hu
  subst hr hu
  have hns : 0 < unit * NSEC_PER_SEC := Nat.mul_pos hunit (by decide)
  refine ⟨by rw [hs], ?_, ?_⟩
  · intro hp
    subst hp
    rw [hs]
    simp only [capacity_exact, Bool.false_eq_true, if_false]
    apply Nat.div_pos _ hrate
    calc rate ≤ rate + nft_limit_init_burst priv.burst burst false := Nat.le_add_right _ _
      _ = 1 * (rate + nft_limit_init_burst priv.burst burst false) := (Nat.one_mul _).symm
      _ ≤ unit * NSEC_PER_SEC * (rate + nft_limit_init_burst priv.burst burst false) :=
        Nat.mul_le_mul_right _ hns
  · intro hp
    subst hp
    rw [hs]
    simp only [capacity_exact, if_true]
    have hb := nft_limit_init_burst_pos priv.burst burst
    constructor
    · intro hpos
      have hq : 0 < unit * NSEC_PER_SEC / rate := Nat.pos_of_mul_pos_right hpos
      exact (Nat.div_pos_iff (Nat.pos_iff_ne_zero.mp hrate)).mp hq
    · intro hle
      exact Nat.mul_pos (Nat.div_pos hle hrate) hb

/-- Witness of C9 amended: 1000 bytes per second without burst. -/
theorem nft_limit_init_capacity_pos_witness :
    nft_limit_init priv_zero ⟨some 1000, some 1, none, some 1, none⟩ false 0 =
      Except.ok ⟨0, 1000000000, 1000000000, 1000, 1000000000, 0, false⟩ ∧
    ((⟨0, 1000000000, 1000000000, 1000, 1000000000, 0, false⟩ : nft_limit_priv).tokens =
        (⟨0, 1000000000, 1000000000, 1000, 1000000000, 0, false⟩ : nft_limit_priv).tokens_max ∧
      (false = false →
        0 < (⟨0, 1000000000, 1000000000, 1000, 1000000000, 0, false⟩ :
          nft_limit_priv).tokens_max) ∧
      (false = true →
        (0 < (⟨0, 1000000000, 1000000000, 1000, 1000000000, 0, false⟩ :
          nft_limit_priv).tokens_max ↔ 1000 ≤ 1 * NSEC_PER_SEC))) :=
  ⟨rfl, nft_limit_init_capacity_pos priv_zero 1000 1 none (some 1) none false 0
    ⟨0, 1000000000, 1000000000, 1000, 1000000000, 0, false⟩ (by decide) (by decide) rfl⟩


/-! ## Draining a full packet-count bucket -/

theorem nft_limit_eval_drain_step (s : nft_limit_priv) (cost now n k : Nat)
    (hlast : s.last = now) (hcost : 0 < cost) (hcs : cost < S64_SIGN)
    (hmax : s.tokens_max < S64_SIGN) (hcap : cost * n ≤ s.tokens_max) :
    nft_limit_eval { s with tokens := cost * (n - k) } cost now =
      (if k < n then s.invert else !s.invert,
        { s with tokens := cost * (n - (k + 1)) }) := by
  have hle : cost * (n - k) ≤ cost * n := Nat.mul_le_mul_left _ (Nat.sub_le _ _)
  have hU : S64_SIGN < U64_SIZE := by decide
  have hU2 : s.tokens_max < U64_SIZE := Nat.lt_trans hmax hU
  have key := nft_limit_eval_exact { s with tokens := cost * (n - k) } cost now
    (Nat.le_of_eq hlast) hmax hcs
    (by simp only [hlast, Nat.sub_self, Nat.add_zero]; omega)
  rw [key]
  simp only [evaluate_spec, hlast, Nat.sub_self, Nat.add_zero]
  rw [Nat.min_eq_left (Nat.le_trans hle hcap)]
  have hsub : cost * (n - (k + 1)) = cost * (n - k) - cost := by
    rw [show n - (k + 1) = (n - k) - 1 from by omega, Nat.mul_sub_one]
  by_cases hk : k < n
  · have hge : cost ≤ cost * (n - k) := by
      calc cost = cost * 1 := (Nat.mul_one _).symm
        _ ≤ cost * (n - k) := Nat.mul_le_mul_left _ (by omega)
    simp only [hge, hk, if_true, Bool.false_xor, hsub]
  · have hz : n - k = 0 := by omega
    have hz1 : n - (k + 1) = 0 := by omega
    simp only [hz, hz1, Nat.mul_zero, hk, if_false, Bool.true_xor]
    have hnle : ¬ cost ≤ 0 := by omega
    simp only [hnle, if_false]

theorem nft_limit_eval_repeat_drain (s : nft_limit_priv) (cost now n : Nat)
    (hlast : s.last = now) (hcost : 0 < cost) (hcs : cost < S64_SIGN)
    (hmax : s.tokens_max < S64_SIGN) (hcap : cost * n ≤ s.tokens_max)
    (htok : s.tokens = cost * n) :
    ∀ k, nft_limit_eval_repeat s cost now k = { s with tokens := cost * (n - k) } := by
  intro k
  induction k with
  | zero =>
    simp only [nft_limit_eval_repeat, Nat.sub_zero, ← htok]
  | succ k ih =>
    simp only [nft_limit_eval_repeat, ih]
    rw [nft_limit_eval_drain_step s cost now n k hlast hcost hcs hmax hcap]


theorem nft_limit_pkts_init_ok_inv (p : nft_limit_priv_pkts) (tb : nlattr_tb)
    (now : Nat) (q : nft_limit_priv_pkts)
    (h : nft_limit_pkts_init p tb now = Except.ok q) :
    nft_limit_init p.limit tb true now = Except.ok q.limit ∧
    q.cost = q.limit.nsecs / q.limit.rate := by
  unfold nft_limit_pkts_init at h
  split at h
  · cases h
  · rename_i limit hinit
    injection h with h
    subst h
    exact ⟨hinit, rfl⟩

/-- C10: when nft_limit_pkts_init succeeds with cost = nsecs / rate > 0 and
tokens_max < 2^63, the fresh bucket is full with tokens_max = cost * burst,
and under evaluations at the clock value of the construction (zero elapsed
time) the token count after k packets is cost * (burst - k), each of the first
burst packets is admitted, and every later packet, the (burst + 1)-th first,
is rejected and leaves the token count at 0. -/
theorem nft_limit_pkts_burst_drain (p : nft_limit_priv_pkts) (tb : nlattr_tb)
    (now : Nat) (q : nft_limit_priv_pkts)
    (h : nft_limit_pkts_init p tb now = Except.ok q)
    (hcost : 0 < q.cost) (hmax : q.limit.tokens_max < 2 ^ 63) :
    q.cost = q.limit.nsecs / q.limit.rate ∧
    q.limit.last = now ∧
    q.limit.tokens = q.limit.tokens_max ∧
    q.limit.tokens_max = q.cost * q.limit.burst ∧
    (∀ k, (nft_limit_eval_repeat q.limit q.cost now k).tokens =
        q.cost * (q.limit.burst - k) ∧
      (nft_limit_eval_repeat q.limit q.cost now k).last = now) ∧
    (∀ k, k < q.limit.burst →
      (nft_limit_eval (nft_limit_eval_repeat q.limit q.cost now k) q.cost now).1 =
        q.limit.invert) ∧
    (∀ k, q.limit.burst ≤ k →
      (nft_limit_eval (nft_limit_eval_repeat q.limit q.cost now k) q.cost now).1 =
        (!q.limit.invert) ∧
      (nft_limit_eval (nft_limit_eval_repeat q.limit q.cost now k) q.cost now).2.tokens
        = 0) := by
  obtain ⟨hinit, hc⟩ := nft_limit_pkts_init_ok_inv p tb now q h
  obtain ⟨rate, unit, _, _, _, _, hs⟩ := nft_limit_init_ok_inv p.limit tb true now q.limit hinit
  have hb := nft_limit_init_burst_pos p.limit.burst tb.NFTA_LIMIT_BURST
  have hmax2 : q.limit.tokens_max < S64_SIGN := by simpa [S64_SIGN] using hmax
  have hlast : q.limit.last = now := by rw [hs]
  have hfull : q.limit.tokens = q.limit.tokens_max := by rw [hs]
  have hburst : q.limit.burst = nft_limit_init_burst p.limit.burst tb.NFTA_LIMIT_BURST true := by
    rw [hs]
  have hcap : q.limit.tokens_max = q.cost * q.limit.burst := by
    rw [hc, hs]
    simp only [capacity_exact, if_true]
  have hbpos : 0 < q.limit.burst := by rw [hburst]; exact hb
  have hcs : q.cost < S64_SIGN := by
    have h1 : q.cost * 1 ≤ q.cost * q.limit.burst := Nat.mul_le_mul_left _ hbpos
    rw [Nat.mul_one, ← hcap] at h1
    exact Nat.lt_of_le_of_lt h1 hmax2
  have hrep := nft_limit_eval_repeat_drain q.limit q.cost now q.limit.burst hlast hcost hcs
    hmax2 (Nat.le_of_eq hcap.symm) (hfull.trans hcap)
  have hstep := fun k => nft_limit_eval_drain_step q.limit q.cost now q.limit.burst k hlast
    hcost hcs hmax2 (Nat.le_of_eq hcap.symm)
  refine ⟨hc, hlast, hfull, hcap, ?_, ?_, ?_⟩
  · intro k
    rw [hrep k]
    exact ⟨rfl, hlast⟩
  · intro k hk
    rw [hrep k, hstep k]
    simp only [hk, if_true]
  · intro k hk
    rw [hrep k, hstep k]
    have hnk : ¬ k < q.limit.burst := by omega
    have hz : q.limit.burst - (k + 1) = 0 := by omega
    simp only [hnk, if_false, hz, Nat.mul_zero, and_self]

/-- Witness of C10: rate 10, unit 1, burst 0 (defaulting to 5) gives
tokens_max = 500_000_000 and cost = 100_000_000; five packets are admitted
and the sixth is rejected. -/
theorem nft_limit_pkts_burst_drain_witness :
    nft_limit_pkts_init ⟨priv_zero, 0⟩ ⟨some 10, some 1, some 0, none, none⟩ 7 =
      Except.ok ⟨⟨7, 500000000, 500000000, 10, 1000000000, 5, false⟩, 100000000⟩ ∧
    (List.range 7).map (fun k => (nft_limit_eval_repeat
        ⟨7, 500000000, 500000000, 10, 1000000000, 5, false⟩ 100000000 7 k).tokens) =
      [500000000, 400000000, 300000000, 200000000, 100000000, 0, 0] ∧
    (List.range 6).map (fun k => (nft_limit_eval (nft_limit_eval_repeat
        ⟨7, 500000000, 500000000, 10, 1000000000, 5, false⟩ 100000000 7 k)
        100000000 7).1) = [false, false, false, false, false, true] ∧
    (∀ k, k < 5 →
      (nft_limit_eval (nft_limit_eval_repeat
        ⟨7, 500000000, 500000000, 10, 1000000000, 5, false⟩ 100000000 7 k)
        100000000 7).1 = false) :=
  ⟨rfl, rfl, rfl,
    (nft_limit_pkts_burst_drain ⟨priv_zero, 0⟩ ⟨some 10, some 1, some 0, none, none⟩ 7
      ⟨⟨7, 500000000, 500000000, 10, 1000000000, 5, false⟩, 100000000⟩ rfl
      (by decide) (by norm_num)).2.2.2.2.2.1⟩


/-! ## Frame and oversized packets -/

theorem nft_limit_eval_frame_eq (s : nft_limit_priv) (cost now : Nat) :
    (nft_limit_eval s cost now).2 =
      { s with last := now, tokens := (nft_limit_eval s cost now).2.tokens } := by
  unfold nft_limit_eval
  simp only
  split_ifs <;> rfl

theorem nft_limit_eval_over_capacity (s : nft_limit_priv) (cost now : Nat)
    (h1 : s.tokens_max < cost) (h2 : cost < S64_SIGN) :
    nft_limit_eval s cost now =
      (!s.invert, { s with last := now, tokens := nft_limit_eval_tokens s now }) := by
  have hle := nft_limit_eval_tokens_le_max s now
  unfold nft_limit_eval
  simp only
  generalize nft_limit_eval_tokens s now = T at hle ⊢
  have hn : s64_nonneg (u64_sub T cost) = false := by
    simp only [s64_nonneg, u64_sub, S64_SIGN, U64_SIZE, decide_eq_false_iff_not] at h2 ⊢
    omega
  simp only [hn, Bool.false_eq_true, if_false]

theorem nft_limit_trace_over_capacity (inputs : List (Nat × Nat)) :
    ∀ s : nft_limit_priv,
      (∀ x ∈ inputs, s.tokens_max < x.2 ∧ x.2 < S64_SIGN) →
      (nft_limit_trace s inputs).map (fun r => r.1) =
        List.replicate inputs.length (!s.invert) := by
  induction inputs with
  | nil => intro s _; rfl
  | cons x rest ih =>
    intro s hx
    obtain ⟨now, cost⟩ := x
    have h0 := hx (now, cost) (List.mem_cons_self _ _)
    have he := nft_limit_eval_over_capacity s cost now h0.1 h0.2
    simp only [nft_limit_trace, List.map_cons, List.length_cons, List.replicate_succ, he]
    have hrest := ih { s with last := now, tokens := nft_limit_eval_tokens s now }
      (fun y hy => hx y (List.mem_cons_of_mem _ hy))
    rw [hrest]

/-- C11: a cost with tokens_max < cost < 2^63 is rejected by nft_limit_eval
(the call returns !invert) at every clock value, whatever the elapsed time,
the refilled count being kept, and so is every evaluation of a run in which
all costs are in that range. -/
theorem nft_limit_eval_oversized_rejected (s : nft_limit_priv)
    (inputs : List (Nat × Nat)) (_htok : s.tokens ≤ s.tokens_max)
    (hcost : ∀ x ∈ inputs, s.tokens_max < x.2 ∧ x.2 < 2 ^ 63) :
    (∀ cost now, s.tokens_max < cost → cost < 2 ^ 63 →
      (nft_limit_eval s cost now).1 = (!s.invert) ∧
      (nft_limit_eval s cost now).2.tokens = nft_limit_eval_tokens s now) ∧
    (nft_limit_trace s inputs).map (fun r => r.1) =
      List.replicate inputs.length (!s.invert) := by
  have hcost2 : ∀ x ∈ inputs, s.tokens_max < x.2 ∧ x.2 < S64_SIGN := by
    intro x hx
    have h := hcost x hx
    exact ⟨h.1, by simpa [S64_SIGN] using h.2⟩
  refine ⟨?_, nft_limit_trace_over_capacity inputs s hcost2⟩
  intro cost now h1 h2
  rw [nft_limit_eval_over_capacity s cost now h1 (by simpa [S64_SIGN] using h2)]
  exact ⟨rfl, rfl⟩

/-- Witness of C11: 1000 bytes per second without burst gives
tokens_max = 1_000_000_000; a packet of 2000 bytes costs 2_000_000_000 and
is rejected at once, one hour later and at the largest clock value. -/
theorem nft_limit_eval_oversized_rejected_witness :
    nft_limit_bytes_init priv_zero ⟨some 1000, some 1, none, some 1, none⟩ 0 =
      Except.ok ⟨0, 1000000000, 1000000000, 1000, 1000000000, 0, false⟩ ∧
    nft_limit_bytes_cost ⟨0, 1000000000, 1000000000, 1000, 1000000000, 0, false⟩ 2000 =
      2000000000 ∧
    (nft_limit_trace ⟨0, 1000000000, 1000000000, 1000, 1000000000, 0, false⟩
      [(0, 2000000000), (3600000000000, 2000000000),
       (18446744073709551615, 2000000000)]).map (fun r => r.1) =
      List.replicate 3 true :=
  ⟨rfl, rfl,
    (nft_limit_eval_oversized_rejected
      ⟨0, 1000000000, 1000000000, 1000, 1000000000, 0, false⟩
      [(0, 2000000000), (3600000000000, 2000000000),
       (18446744073709551615, 2000000000)] (by decide)
      (by intro x hx
          simp only [List.mem_cons, List.mem_singleton, List.mem_nil_iff, or_false] at hx
          rcases hx with h | h | h <;> subst h <;> norm_num)).2⟩

/-- C14: nft_limit_eval leaves tokens_max, rate, nsecs, burst and invert
unchanged and sets last to the clock value of the call, in the admitted and in
the rejected branch alike, so that only tokens and last change; the cost field
of the packet-count state is left unchanged by nft_limit_pkts_eval and
nft_limit_obj_pkts_eval, which apply nft_limit_eval to the embedded state. -/
theorem nft_limit_eval_frame (s : nft_limit_priv) (cost now : Nat)
    (p : nft_limit_priv_pkts) (NFT_BREAK verdict_code : Int) :
    (nft_limit_eval s cost now).2.tokens_max = s.tokens_max ∧
    (nft_limit_eval s cost now).2.rate = s.rate ∧
    (nft_limit_eval s cost now).2.nsecs = s.nsecs ∧
    (nft_limit_eval s cost now).2.burst = s.burst ∧
    (nft_limit_eval s cost now).2.invert = s.invert ∧
    (nft_limit_eval s cost now).2.last = now ∧
    (nft_limit_eval s cost now).2 =
      { s with last := now, tokens := (nft_limit_eval s cost now).2.tokens } ∧
    (nft_limit_pkts_eval NFT_BREAK p verdict_code now).1.cost = p.cost ∧
    (nft_limit_pkts_eval NFT_BREAK p verdict_code now).1.limit =
      (nft_limit_eval p.limit p.cost now).2 ∧
    (nft_limit_obj_pkts_eval NFT_BREAK p verdict_code now).1.cost = p.cost ∧
    (nft_limit_obj_pkts_eval NFT_BREAK p verdict_code now).1.limit =
      (nft_limit_eval p.limit p.cost now).2 := by
  have h := nft_limit_eval_frame_eq s cost now
  refine ⟨?_, ?_, ?_, ?_, ?_, ?_, h, rfl, rfl, rfl, rfl⟩ <;> rw [h]


/-! ## Defaults, invalid arguments and mode selection -/

/-- C15: on a zero-filled private area a successful nft_limit_init leaves, in
packet-count mode, burst 5 when the burst attribute is absent or 0 and the
supplied value when it is not 0, and in byte-rate mode burst 0 when the
attribute is absent and the supplied value otherwise. -/
theorem nft_limit_init_burst_default (tb : nlattr_tb) (pkts : Bool) (now : Nat)
    (s : nft_limit_priv) (h : nft_limit_init priv_zero tb pkts now = Except.ok s) :
    (pkts = true → tb.NFTA_LIMIT_BURST = none → s.burst = 5) ∧
    (pkts = true → tb.NFTA_LIMIT_BURST = some 0 → s.burst = 5) ∧
    (pkts = true → ∀ b, tb.NFTA_LIMIT_BURST = some b → b ≠ 0 → s.burst = b) ∧
    (pkts = false → tb.NFTA_LIMIT_BURST = none → s.burst = 0) ∧
    (pkts = false → ∀ b, tb.NFTA_LIMIT_BURST = some b → s.burst = b) := by
  obtain ⟨rate, unit, _, _, _, _, hs⟩ := nft_limit_init_ok_inv priv_zero tb pkts now s h
  have hb : s.burst = nft_limit_init_burst priv_zero.burst tb.NFTA_LIMIT_BURST pkts := by
    rw [hs]
  rw [hb]
  refine ⟨?_, ?_, ?_, ?_, ?_⟩
  · intro hp ha; rw [hp, ha]; rfl
  · intro hp ha; rw [hp, ha]; rfl
  · intro hp b ha hne
    rw [hp, ha]
    simp only [nft_limit_init_burst, Bool.true_and, beq_iff_eq, hne, if_false]
  · intro hp ha; rw [hp, ha]; rfl
  · intro hp b ha
    rw [hp, ha]
    simp only [nft_limit_init_burst, Bool.false_and, Bool.false_eq_true, if_false]

/-- Witness of C15: rate 10, unit 1 and a supplied burst of 0 in packet-count
mode on the zero-filled private area. -/
theorem nft_limit_init_burst_default_witness :
    nft_limit_init priv_zero ⟨some 10, some 1, some 0, none, none⟩ true 7 =
      Except.ok ⟨7, 500000000, 500000000, 10, 1000000000, 5, false⟩ ∧
    (⟨7, 500000000, 500000000, 10, 1000000000, 5, false⟩ : nft_limit_priv).burst = 5 :=
  ⟨rfl, (nft_limit_init_burst_default ⟨some 10, some 1, some 0, none, none⟩ true 7
    ⟨7, 500000000, 500000000, 10, 1000000000, 5, false⟩ rfl).2.1 rfl rfl⟩

theorem nft_limit_init_supplied_ne_einval (priv : nft_limit_priv) (rate unit : Nat)
    (burst type flags : Option Nat) (pkts : Bool) (now : Nat) (hrate : rate ≠ 0) :
    nft_limit_init priv ⟨some rate, some unit, burst, type, flags⟩ pkts now ≠
      Except.error errno.EINVAL := by
  rw [nft_limit_init_supplied, if_neg hrate]
  split_ifs <;> intro hc <;> cases hc

theorem div64_u64_trap_of_ne_zero (a b : Nat) (hb : b ≠ 0) :
    div64_u64_trap a b = some (div64_u64 a b) := by
  unfold div64_u64_trap div64_u64
  rw [if_neg hb]

theorem nft_limit_init_trap_eq (priv : nft_limit_priv) (tb : nlattr_tb) (pkts : Bool)
    (now : Nat) :
    nft_limit_init_trap priv tb pkts now = some (nft_limit_init priv tb pkts now) := by
  obtain ⟨orate, ounit, burst, type, flags⟩ := tb
  rcases orate with _ | rate
  · rfl
  rcases ounit with _ | unit
  · rfl
  simp only [nft_limit_init_trap, nft_limit_init]
  generalize nft_limit_init_burst priv.burst burst pkts = b
  generalize nft_limit_init_invert priv.invert flags = inv
  by_cases h0 : rate = 0
  · rw [if_pos h0, if_pos h0]
  rw [if_neg h0, if_neg h0]
  simp only [div64_u64_trap_of_ne_zero _ rate h0]
  by_cases h1 : (check_mul_overflow unit NSEC_PER_SEC).1 = true
  · rw [if_pos h1, if_pos h1]
  rw [if_neg h1, if_neg h1]
  by_cases h2 : (check_add_overflow rate b).1 = true
  · rw [if_pos h2, if_pos h2]
  rw [if_neg h2, if_neg h2]
  cases pkts
  · simp only [Bool.false_eq_true, if_false]
    by_cases h3 : (check_mul_overflow (check_mul_overflow unit NSEC_PER_SEC).2
        (check_add_overflow rate b).2).1 = true
    · rw [if_pos h3, if_pos h3]
    · rw [if_neg h3, if_neg h3]
  · simp only [if_true]
    by_cases h3 : (check_mul_overflow
        (div64_u64 (check_mul_overflow unit NSEC_PER_SEC).2 rate) b).1 = true
    · rw [if_pos h3, if_pos h3]
    · rw [if_neg h3, if_neg h3]

theorem nft_limit_pkts_init_trap_eq (p : nft_limit_priv_pkts) (tb : nlattr_tb)
    (now : Nat) :
    nft_limit_pkts_init_trap p tb now = some (nft_limit_pkts_init p tb now) ∧
    nft_limit_obj_pkts_init_trap p tb now = some (nft_limit_obj_pkts_init p tb now) := by
  unfold nft_limit_pkts_init_trap nft_limit_obj_pkts_init_trap nft_limit_pkts_init
    nft_limit_obj_pkts_init
  rw [nft_limit_init_trap_eq]
  cases hinit : nft_limit_init p.limit tb true now with
  | error err => exact ⟨rfl, rfl⟩
  | ok limit =>
    obtain ⟨rate, unit, _, _, hpos, _, hst⟩ :=
      nft_limit_init_ok_inv p.limit tb true now limit hinit
    have hne : limit.rate ≠ 0 := by rw [hst]; exact Nat.pos_iff_ne_zero.mp hpos
    simp only [div64_u64_trap_of_ne_zero _ _ hne, and_self]

/-- C16: nft_limit_init returns -EINVAL exactly when the rate attribute is
missing, the unit attribute is missing, or the rate is 0; with rate 0 it
returns -EINVAL for every unit, burst, type, flags and mode, also for a unit
whose period in nanoseconds overflows, and a successful call has a non-zero
rate. No division by a zero rate is performed: with divisions that trap on a
zero divisor, nft_limit_init and the two packet-count init functions never
trap and return what the functions return, with rate 0 the run ends in
-EINVAL before any division, and the byte-rate cost computed on a state with
the rate of a successfully built state does not trap. -/
theorem nft_limit_init_einval_iff (priv : nft_limit_priv) (tb : nlattr_tb)
    (pkts : Bool) (now : Nat) :
    (nft_limit_init priv tb pkts now = Except.error errno.EINVAL ↔
      (tb.NFTA_LIMIT_RATE = none ∨ tb.NFTA_LIMIT_UNIT = none ∨
        tb.NFTA_LIMIT_RATE = some 0)) ∧
    (∀ unit burst type flags,
      nft_limit_init priv ⟨some 0, some unit, burst, type, flags⟩ pkts now =
        Except.error errno.EINVAL) ∧
    (∀ s, nft_limit_init priv tb pkts now = Except.ok s → s.rate ≠ 0) ∧
    nft_limit_init_trap priv tb pkts now = some (nft_limit_init priv tb pkts now) ∧
    (∀ unit burst type flags,
      nft_limit_init_trap priv ⟨some 0, some unit, burst, type, flags⟩ pkts now =
        some (Except.error errno.EINVAL)) ∧
    (∀ p : nft_limit_priv_pkts,
      nft_limit_pkts_init_trap p tb now = some (nft_limit_pkts_init p tb now) ∧
      nft_limit_obj_pkts_init_trap p tb now =
        some (nft_limit_obj_pkts_init p tb now)) ∧
    (∀ s t len, nft_limit_init priv tb pkts now = Except.ok s → t.rate = s.rate →
      nft_limit_bytes_cost_trap t len = some (nft_limit_bytes_cost t len)) := by
  have hrate : ∀ s, nft_limit_init priv tb pkts now = Except.ok s → s.rate ≠ 0 := by
    intro s hs
    obtain ⟨rate, unit, _, _, hpos, _, hst⟩ := nft_limit_init_ok_inv priv tb pkts now s hs
    rw [hst]
    exact Nat.pos_iff_ne_zero.mp hpos
  refine ⟨?_, ?_, hrate, nft_limit_init_trap_eq priv tb pkts now, ?_,
    fun p => nft_limit_pkts_init_trap_eq p tb now, ?_⟩
  · obtain ⟨orate, ounit, burst, type, flags⟩ := tb
    rcases orate with _ | rate
    · simp [nft_limit_init]
    rcases ounit with _ | unit
    · simp [nft_limit_init]
    by_cases h0 : rate = 0
    · subst h0
      simp [nft_limit_init]
    · constructor
      · intro h
        exact absurd h (nft_limit_init_supplied_ne_einval priv rate unit burst type flags
          pkts now h0)
      · intro h
        simp only [Option.some.injEq, h0, or_false] at h
        rcases h with h | h <;> cases h
  · intro unit burst type flags
    simp [nft_limit_init]
  · intro unit burst type flags
    simp [nft_limit_init_trap]
  · intro s t len hs ht
    have hne : t.rate ≠ 0 := by rw [ht]; exact hrate s hs
    unfold nft_limit_bytes_cost_trap nft_limit_bytes_cost
    exact div64_u64_trap_of_ne_zero _ _ hne

/-- C17: nft_limit_select_ops and nft_limit_obj_select_ops select the
packet-count operations when the type attribute is absent or NFT_LIMIT_PKTS,
the byte-rate operations when it is NFT_LIMIT_PKT_BYTES, and return
-EOPNOTSUPP and no operations for every other type value. -/
theorem nft_limit_select_ops_modes (rate unit burst flags : Option Nat) :
    nft_limit_select_ops ⟨rate, unit, burst, none, flags⟩ =
      Except.ok nft_expr_ops.nft_limit_pkts_ops ∧
    nft_limit_select_ops ⟨rate, unit, burst, some NFT_LIMIT_PKTS, flags⟩ =
      Except.ok nft_expr_ops.nft_limit_pkts_ops ∧
    nft_limit_select_ops ⟨rate, unit, burst, some NFT_LIMIT_PKT_BYTES, flags⟩ =
      Except.ok nft_expr_ops.nft_limit_bytes_ops ∧
    (∀ type, type ≠ NFT_LIMIT_PKTS → type ≠ NFT_LIMIT_PKT_BYTES →
      nft_limit_select_ops ⟨rate, unit, burst, some type, flags⟩ =
        Except.error errno.EOPNOTSUPP) ∧
    nft_limit_obj_select_ops ⟨rate, unit, burst, none, flags⟩ =
      Except.ok nft_object_ops.nft_limit_obj_pkts_ops ∧
    nft_limit_obj_select_ops ⟨rate, unit, burst, some NFT_LIMIT_PKTS, flags⟩ =
      Except.ok nft_object_ops.nft_limit_obj_pkts_ops ∧
    nft_limit_obj_select_ops ⟨rate, unit, burst, some NFT_LIMIT_PKT_BYTES, flags⟩ =
      Except.ok nft_object_ops.nft_limit_obj_bytes_ops ∧
    (∀ type, type ≠ NFT_LIMIT_PKTS → type ≠ NFT_LIMIT_PKT_BYTES →
      nft_limit_obj_select_ops ⟨rate, unit, burst, some type, flags⟩ =
        Except.error errno.EOPNOTSUPP) := by
  refine ⟨rfl, rfl, rfl, ?_, rfl, rfl, rfl, ?_⟩
  · intro type h1 h2
    simp only [nft_limit_select_ops, h1, h2, if_false]
  · intro type h1 h2
    simp only [nft_limit_obj_select_ops, h1, h2, if_false]

/-- Witness of C17: the type value 2 is refused by both selections. -/
theorem nft_limit_select_ops_modes_witness :
    nft_limit_select_ops ⟨some 10, some 1, none, some 2, none⟩ =
      Except.error errno.EOPNOTSUPP ∧
    nft_limit_obj_select_ops ⟨some 10, some 1, none, some 2, none⟩ =
      Except.error errno.EOPNOTSUPP :=
  ⟨(nft_limit_select_ops_modes (some 10) (some 1) none none).2.2.2.1 2
      (by decide) (by decide),
    (nft_limit_select_ops_modes (some 10) (some 1) none none).2.2.2.2.2.2.2 2
      (by decide) (by decide)⟩


/-- Witness of C16: rate 0 with a unit whose period overflows is refused as
an invalid argument, not as an overflow, and without a division, while a
division by 0 traps. -/
theorem nft_limit_init_einval_iff_witness :
    nft_limit_init priv_zero ⟨some 0, some 18446744073709551615, none, none, none⟩
      true 0 = Except.error errno.EINVAL ∧
    nft_limit_init priv_zero ⟨some 1, some 18446744073709551615, none, none, none⟩
      true 0 = Except.error errno.EOVERFLOW ∧
    div64_u64_trap 1000000000 0 = none ∧
    nft_limit_init_trap priv_zero
      ⟨some 0, some 18446744073709551615, none, none, none⟩ true 0 =
      some (Except.error errno.EINVAL) ∧
    nft_limit_pkts_init_trap ⟨priv_zero, 0⟩ ⟨some 0, some 1, none, none, none⟩ 0 =
      some (Except.error errno.EINVAL) :=
  ⟨(nft_limit_init_einval_iff priv_zero
      ⟨some 0, some 18446744073709551615, none, none, none⟩ true 0).2.1
      18446744073709551615 none none none, rfl, rfl,
    (nft_limit_init_einval_iff priv_zero
      ⟨some 0, some 18446744073709551615, none, none, none⟩ true 0).2.2.2.2.1
      18446744073709551615 none none none, rfl⟩

/-! ## Cost of a packet in byte-rate mode -/

/-- C13, the code at the failing input: for the byte-rate bucket built for
1 byte per week (nsecs = 604_800_000_000_000) and a packet of 30501 bytes the
exact cost is 18_447_004_800_000_000_000, more than 2^64 - 1; the u64 product
wraps and both nft_limit_bytes_eval and nft_limit_obj_bytes_eval pass the cost
260_726_290_448_384 to nft_limit_eval, which admits the packet (the verdict
code is left untouched) although the exact cost exceeds tokens_max. -/
theorem nft_limit_bytes_cost_wraps :
    nft_limit_bytes_init priv_zero ⟨some 1, some 604800, none, some 1, none⟩ 0 =
      Except.ok ⟨0, 604800000000000, 604800000000000, 1, 604800000000000, 0, false⟩ ∧
    30501 < U32_SIZE ∧
    604800000000000 * 30501 / 1 = 18447004800000000000 ∧
    nft_limit_bytes_cost
      ⟨0, 604800000000000, 604800000000000, 1, 604800000000000, 0, false⟩ 30501 =
      260726290448384 ∧
    nft_limit_bytes_eval (-2)
      ⟨0, 604800000000000, 604800000000000, 1, 604800000000000, 0, false⟩ 30501 (-1) 0 =
      (⟨0, 344073709551616, 604800000000000, 1, 604800000000000, 0, false⟩, -1) ∧
    nft_limit_obj_bytes_eval (-2)
      ⟨0, 604800000000000, 604800000000000, 1, 604800000000000, 0, false⟩ 30501 (-1) 0 =
      (⟨0, 344073709551616, 604800000000000, 1, 604800000000000, 0, false⟩, -1) :=
  ⟨rfl, by decide, by decide, rfl, rfl, rfl⟩

theorem nft_limit_bytes_cost_exact (s : nft_limit_priv) (len : Nat)
    (hmul : s.nsecs * len < U64_SIZE) :
    nft_limit_bytes_cost s len = s.nsecs * len / s.rate := by
  unfold nft_limit_bytes_cost div64_u64
  rw [u64_mul_of_not_le _ _ (Nat.not_le_of_lt hmul)]

theorem nft_limit_eval_admits_of_le (s : nft_limit_priv) (cost now : Nat)
    (hmax : s.tokens_max < S64_SIGN) (hcost : cost ≤ nft_limit_eval_tokens s now) :
    nft_limit_eval s cost now =
      (s.invert, { s with last := now, tokens := nft_limit_eval_tokens s now - cost }) := by
  have hle := nft_limit_eval_tokens_le_max s now
  unfold nft_limit_eval
  simp only
  generalize nft_limit_eval_tokens s now = T at hle hcost ⊢
  have hd : u64_sub T cost = T - cost :=
    u64_sub_of_le T cost (by simp only [S64_SIGN, U64_SIZE] at hmax ⊢; omega) hcost
  have hn : s64_nonneg (T - cost) = true := by
    simp only [s64_nonneg, S64_SIGN, decide_eq_true_eq] at hmax ⊢; omega
  simp only [hd, hn, if_true]

/-- C19: a byte-rate bucket built by nft_limit_init has tokens_max >= nsecs;
a packet of length len <= rate with nsecs * len < 2^64 has a cost of at most
nsecs and hence at most tokens_max, and when tokens_max < 2^63 it is admitted
by every state of that bucket whose refilled count at the evaluation is
tokens_max (the bucket is full); the freshly built state is full at every
later clock value for which tokens_max + (now - last) < 2^64. -/
theorem nft_limit_bytes_capacity (priv : nft_limit_priv) (tb : nlattr_tb)
    (now0 : Nat) (s : nft_limit_priv) (len : Nat)
    (h : nft_limit_bytes_init priv tb now0 = Except.ok s)
    (hlen : len ≤ s.rate) (hmul : s.nsecs * len < 2 ^ 64) :
    s.nsecs ≤ s.tokens_max ∧
    nft_limit_bytes_cost s len ≤ s.tokens_max ∧
    (s.tokens_max < 2 ^ 63 →
      ∀ (t : nft_limit_priv) (now : Nat), t.tokens_max = s.tokens_max →
        nft_limit_eval_tokens t now = t.tokens_max →
        (nft_limit_eval t (nft_limit_bytes_cost s len) now).1 = t.invert ∧
        (nft_limit_eval t (nft_limit_bytes_cost s len) now).2.tokens =
          t.tokens_max - nft_limit_bytes_cost s len) ∧
    (∀ now, s.last ≤ now → s.tokens_max + (now - s.last) < 2 ^ 64 →
      nft_limit_eval_tokens s now = s.tokens_max) := by
  unfold nft_limit_bytes_init at h
  obtain ⟨rate, unit, _, _, hpos, _, hs⟩ := nft_limit_init_ok_inv priv tb false now0 s h
  have hrate : s.rate = rate := by rw [hs]
  have hcap : s.tokens_max = s.nsecs * (s.rate + s.burst) / s.rate := by
    rw [hs]; simp only [capacity_exact, Bool.false_eq_true, if_false]
  have hfull : s.tokens = s.tokens_max := by rw [hs]
  have hrpos : 0 < s.rate := by rw [hrate]; exact hpos
  have hA : s.nsecs ≤ s.tokens_max := by
    rw [hcap, Nat.le_div_iff_mul_le hrpos]
    exact Nat.mul_le_mul_left _ (Nat.le_add_right _ _)
  have hB : nft_limit_bytes_cost s len ≤ s.nsecs := by
    rw [nft_limit_bytes_cost_exact s len (by simpa [U64_SIZE] using hmul)]
    calc s.nsecs * len / s.rate ≤ s.nsecs * s.rate / s.rate :=
          Nat.div_le_div_right (Nat.mul_le_mul_left _ hlen)
      _ = s.nsecs := Nat.mul_div_cancel _ hrpos
  refine ⟨hA, Nat.le_trans hB hA, ?_, ?_⟩
  · intro hmax t now ht hfullt
    have hmaxt : t.tokens_max < S64_SIGN := by rw [ht]; simpa [S64_SIGN] using hmax
    have hc : nft_limit_bytes_cost s len ≤ nft_limit_eval_tokens t now := by
      rw [hfullt, ht]; exact Nat.le_trans hB hA
    rw [nft_limit_eval_admits_of_le t _ now hmaxt hc, hfullt]
    exact ⟨rfl, rfl⟩
  · intro now hnow hno
    rw [nft_limit_eval_tokens_exact s now hnow
      (by rw [hfull]; simpa [U64_SIZE] using hno), hfull]
    exact Nat.min_eq_right (Nat.le_add_right _ _)

/-- Witness of C19: 1000 bytes per second without burst; a packet of 1000
bytes costs the whole capacity and is admitted by the full bucket. -/
theorem nft_limit_bytes_capacity_witness :
    nft_limit_bytes_init priv_zero ⟨some 1000, some 1, none, some 1, none⟩ 0 =
      Except.ok ⟨0, 1000000000, 1000000000, 1000, 1000000000, 0, false⟩ ∧
    nft_limit_bytes_cost ⟨0, 1000000000, 1000000000, 1000, 1000000000, 0, false⟩ 1000 =
      1000000000 ∧
    nft_limit_eval ⟨0, 1000000000, 1000000000, 1000, 1000000000, 0, false⟩
      1000000000 5 = (false, ⟨5, 0, 1000000000, 1000, 1000000000, 0, false⟩) ∧
    (1000000000 : Nat) ≤
      (⟨0, 1000000000, 1000000000, 1000, 1000000000, 0, false⟩ : nft_limit_priv).tokens_max :=
  ⟨rfl, rfl, rfl,
    (nft_limit_bytes_capacity priv_zero ⟨some 1000, some 1, none, some 1, none⟩ 0
      ⟨0, 1000000000, 1000000000, 1000, 1000000000, 0, false⟩ 1000 rfl
      (by decide) (by norm_num)).1⟩


/-! ## Packet rates above one per nanosecond -/

theorem nft_limit_eval_zero_capacity (s : nft_limit_priv) (now : Nat)
    (hmax : s.tokens_max = 0) :
    nft_limit_eval s 0 now = (s.invert, { s with last := now, tokens := 0 }) := by
  have hle := nft_limit_eval_tokens_le_max s now
  rw [hmax] at hle
  have hT : nft_limit_eval_tokens s now = 0 := Nat.le_zero.mp hle
  rw [nft_limit_eval_admits_of_le s 0 now (by rw [hmax]; decide) (Nat.zero_le _), hT]

theorem nft_limit_trace_zero_capacity (clocks : List Nat) :
    ∀ s : nft_limit_priv, s.tokens_max = 0 →
      (nft_limit_trace s (clocks.map (fun now => (now, 0)))).map (fun r => r.1) =
        List.replicate clocks.length s.invert := by
  induction clocks with
  | nil => intro s _; rfl
  | cons now rest ih =>
    intro s hmax
    simp only [List.map_cons, nft_limit_trace, List.length_cons, List.replicate_succ,
      nft_limit_eval_zero_capacity s now hmax]
    have hrest := ih { s with last := now, tokens := 0 } hmax
    rw [hrest]

/-- C20: a packet-count configuration with rate > unit * 1_000_000_000 that
nft_limit_pkts_init accepts has cost = 0 and tokens_max = 0, and then every
call of nft_limit_eval with that cost returns invert (the packet is admitted)
at every clock value, along every run of evaluations. -/
theorem nft_limit_pkts_fast_rate (p : nft_limit_priv_pkts) (tb : nlattr_tb)
    (now0 : Nat) (q : nft_limit_priv_pkts) (rate unit : Nat)
    (h : nft_limit_pkts_init p tb now0 = Except.ok q)
    (hr : tb.NFTA_LIMIT_RATE = some rate) (hu : tb.NFTA_LIMIT_UNIT = some unit)
    (hfast : unit * 1000000000 < rate) :
    q.cost = 0 ∧ q.limit.tokens_max = 0 ∧
    (∀ now, (nft_limit_eval q.limit q.cost now).1 = q.limit.invert) ∧
    (∀ clocks : List Nat,
      (nft_limit_trace q.limit (clocks.map (fun now => (now, q.cost)))).map
          (fun r => r.1) =
        List.replicate clocks.length q.limit.invert) := by
  obtain ⟨hinit, hc⟩ := nft_limit_pkts_init_ok_inv p tb now0 q h
  obtain ⟨rate1, unit1, hr1, hu1, _, _, hs⟩ :=
    nft_limit_init_ok_inv p.limit tb true now0 q.limit hinit
  rw [hr] at hr1
  rw [hu] at hu1
  simp only [Option.some.injEq] at hr1 hu1
  subst hr1 hu1
  have hq : unit * NSEC_PER_SEC / rate = 0 := Nat.div_eq_of_lt hfast
  have hcost : q.cost = 0 := by rw [hc, hs]; exact hq
  have hmax : q.limit.tokens_max = 0 := by
    rw [hs]
    simp only [capacity_exact, if_true, hq, Nat.zero_mul]
  refine ⟨hcost, hmax, ?_, ?_⟩
  · intro now
    rw [hcost, nft_limit_eval_zero_capacity q.limit now hmax]
  · intro clocks
    rw [hcost]
    exact nft_limit_trace_zero_capacity clocks q.limit hmax

/-- Witness of C20: 2_000_000_000 packets per second. -/
theorem nft_limit_pkts_fast_rate_witness :
    nft_limit_pkts_init ⟨priv_zero, 0⟩ ⟨some 2000000000, some 1, none, none, none⟩ 0 =
      Except.ok ⟨⟨0, 0, 0, 2000000000, 1000000000, 5, false⟩, 0⟩ ∧
    (nft_limit_trace ⟨0, 0, 0, 2000000000, 1000000000, 5, false⟩
      ([0, 0, 1, 5].map (fun now => (now, 0)))).map (fun r => r.1) =
      List.replicate 4 false :=
  ⟨rfl,
    (nft_limit_pkts_fast_rate ⟨priv_zero, 0⟩
      ⟨some 2000000000, some 1, none, none, none⟩ 0
      ⟨⟨0, 0, 0, 2000000000, 1000000000, 5, false⟩, 0⟩ 2000000000 1 rfl rfl rfl
      (by decide)).2.2.2 [0, 0, 1, 5]⟩

/-! ## Dump and rebuild -/

theorem nft_limit_init_invert_dump (old inv : Bool) (hold : old = false) :
    nft_limit_init_invert old (some (if inv = true then NFT_LIMIT_F_INV else 0)) = inv := by
  subst hold
  cases inv <;> rfl

theorem nft_limit_init_burst_idem (old1 old0 : Nat) (attr : Option Nat) (pkts : Bool) :
    nft_limit_init_burst old1 (some (nft_limit_init_burst old0 attr pkts)) pkts =
      nft_limit_init_burst old0 attr pkts := by
  cases pkts
  · simp only [nft_limit_init_burst, Bool.false_and, Bool.false_eq_true, if_false]
  · have hpos := nft_limit_init_burst_pos old0 attr
    generalize nft_limit_init_burst old0 attr true = b at hpos ⊢
    have hne : ¬ b = 0 := by omega
    simp only [nft_limit_init_burst, Bool.true_and, beq_iff_eq, hne, if_false]

theorem nft_limit_init_rebuild (priv1 : nft_limit_priv) (rate unit b : Nat)
    (ty : Option Nat) (inv pkts : Bool) (now1 : Nat) (hpos : 0 < rate)
    (hno : ¬ config_overflows rate unit b pkts)
    (hb : nft_limit_init_burst priv1.burst (some b) pkts = b)
    (hclear : priv1.invert = false) :
    nft_limit_init priv1
        ⟨some rate, some unit, some b, ty,
          some (if inv = true then NFT_LIMIT_F_INV else 0)⟩ pkts now1 =
      Except.ok
        { last := now1, tokens := capacity_exact (unit * NSEC_PER_SEC) rate b pkts,
          tokens_max := capacity_exact (unit * NSEC_PER_SEC) rate b pkts,
          rate := rate, nsecs := unit * NSEC_PER_SEC, burst := b, invert := inv } := by
  have h0 : ¬ rate = 0 := by omega
  have h1 : ¬ U64_SIZE ≤ unit * NSEC_PER_SEC := fun hc => hno (Or.inl hc)
  have h2 : ¬ U64_SIZE ≤ rate + b := fun hc => hno (Or.inr (Or.inl hc))
  rw [nft_limit_init_supplied, hb, nft_limit_init_invert_dump _ _ hclear,
    if_neg h0, if_neg h1, if_neg h2]
  cases pkts
  · have h3 : ¬ U64_SIZE ≤ unit * NSEC_PER_SEC * (rate + b) := by
      intro hc; apply hno; right; right; simpa using hc
    simp only [Bool.false_eq_true, if_false, h3, capacity_exact]
  · have h3 : ¬ U64_SIZE ≤ unit * NSEC_PER_SEC / rate * b := by
      intro hc; apply hno; right; right; simpa using hc
    simp only [if_true, h3, if_false, capacity_exact]

/-- C12: for a state built by a successful nft_limit_init, nft_limit_dump
writes the original rate and unit (unit = nsecs / 1_000_000_000), the burst,
the type and the invert flag; nft_limit_init run on the dumped attributes in
the same mode, on a private area whose invert flag is clear as in the
zero-filled one, succeeds and yields the same state up to last (same rate,
nsecs, burst, invert, tokens_max and tokens), the packet-count wrappers
compute the same cost nsecs / rate, and the dumped type selects the same
operations. -/
theorem nft_limit_dump_roundtrip (priv0 priv1 : nft_limit_priv) (tb : nlattr_tb)
    (pkts : Bool) (now0 now1 cost1 : Nat) (s : nft_limit_priv)
    (h : nft_limit_init priv0 tb pkts now0 = Except.ok s)
    (hclear : priv1.invert = false) :
    (nft_limit_dump s (if pkts = true then NFT_LIMIT_PKTS else NFT_LIMIT_PKT_BYTES)) =
      ⟨tb.NFTA_LIMIT_RATE, tb.NFTA_LIMIT_UNIT, some s.burst,
        some (if pkts = true then NFT_LIMIT_PKTS else NFT_LIMIT_PKT_BYTES),
        some (if s.invert = true then NFT_LIMIT_F_INV else 0)⟩ ∧
    nft_limit_init priv1
        (nft_limit_dump s (if pkts = true then NFT_LIMIT_PKTS else NFT_LIMIT_PKT_BYTES))
        pkts now1 = Except.ok { s with last := now1 } ∧
    (pkts = true →
      nft_limit_pkts_init ⟨priv1, cost1⟩ (nft_limit_pkts_dump ⟨s, s.nsecs / s.rate⟩) now1 =
        Except.ok ⟨{ s with last := now1 }, s.nsecs / s.rate⟩ ∧
      nft_limit_obj_pkts_init ⟨priv1, cost1⟩ (nft_limit_pkts_dump ⟨s, s.nsecs / s.rate⟩)
          now1 = Except.ok ⟨{ s with last := now1 }, s.nsecs / s.rate⟩ ∧
      nft_limit_select_ops (nft_limit_pkts_dump ⟨s, s.nsecs / s.rate⟩) =
        Except.ok nft_expr_ops.nft_limit_pkts_ops ∧
      nft_limit_obj_select_ops (nft_limit_pkts_dump ⟨s, s.nsecs / s.rate⟩) =
        Except.ok nft_object_ops.nft_limit_obj_pkts_ops) ∧
    (pkts = false →
      nft_limit_bytes_init priv1 (nft_limit_bytes_dump s) now1 =
        Except.ok { s with last := now1 } ∧
      nft_limit_obj_bytes_init priv1 (nft_limit_bytes_dump s) now1 =
        Except.ok { s with last := now1 } ∧
      nft_limit_select_ops (nft_limit_bytes_dump s) =
        Except.ok nft_expr_ops.nft_limit_bytes_ops ∧
      nft_limit_obj_select_ops (nft_limit_bytes_dump s) =
        Except.ok nft_object_ops.nft_limit_obj_bytes_ops) := by
  obtain ⟨rate, unit, hr, hu, hpos, hno, hs⟩ := nft_limit_init_ok_inv priv0 tb pkts now0 s h
  have hrate : s.rate = rate := by rw [hs]
  have hnsecs : s.nsecs = unit * NSEC_PER_SEC := by rw [hs]
  have hburst : s.burst = nft_limit_init_burst priv0.burst tb.NFTA_LIMIT_BURST pkts := by
    rw [hs]
  have hunit : div_u64 s.nsecs NSEC_PER_SEC = unit := by
    rw [hnsecs]; exact Nat.mul_div_cancel _ (by decide)
  have hdump : ∀ ty, nft_limit_dump s ty =
      ⟨some rate, some unit, some s.burst, some ty,
        some (if s.invert = true then NFT_LIMIT_F_INV else 0)⟩ := by
    intro ty
    simp only [nft_limit_dump, hunit, hrate]
  have hb : nft_limit_init_burst priv1.burst (some s.burst) pkts = s.burst := by
    rw [hburst]; exact nft_limit_init_burst_idem _ _ _ _
  have hno2 : ¬ config_overflows rate unit s.burst pkts := by rw [hburst]; exact hno
  have hsnew : ({ s with last := now1 } : nft_limit_priv) =
      { last := now1, tokens := capacity_exact (unit * NSEC_PER_SEC) rate s.burst pkts,
        tokens_max := capacity_exact (unit * NSEC_PER_SEC) rate s.burst pkts,
        rate := rate, nsecs := unit * NSEC_PER_SEC, burst := s.burst,
        invert := s.invert } := by
    rw [hburst, hs]
  have hre : ∀ ty, nft_limit_init priv1 (nft_limit_dump s ty) pkts now1 =
      Except.ok { s with last := now1 } := by
    intro ty
    rw [hdump ty, hsnew]
    exact nft_limit_init_rebuild priv1 rate unit s.burst (some ty) s.invert pkts now1 hpos
      hno2 hb hclear
  refine ⟨?_, hre _, ?_, ?_⟩
  · rw [hdump, hr, hu]
  · intro hp
    subst hp
    have hre0 := hre NFT_LIMIT_PKTS
    refine ⟨?_, ?_, ?_, ?_⟩
    · simp only [nft_limit_pkts_init, nft_limit_pkts_dump, hre0, div64_u64]
    · simp only [nft_limit_obj_pkts_init, nft_limit_pkts_dump, hre0, div64_u64]
    · simp only [nft_limit_pkts_dump, hdump]; rfl
    · simp only [nft_limit_pkts_dump, hdump]; rfl
  · intro hp
    subst hp
    have hre1 := hre NFT_LIMIT_PKT_BYTES
    refine ⟨?_, ?_, ?_, ?_⟩
    · simp only [nft_limit_bytes_init, nft_limit_bytes_dump, hre1]
    · simp only [nft_limit_obj_bytes_init, nft_limit_bytes_dump, hre1]
    · simp only [nft_limit_bytes_dump, hdump]; rfl
    · simp only [nft_limit_bytes_dump, hdump]; rfl

/-- Witness of C12: the packet-count configuration rate 10, unit 1, burst 0
with the invert flag set, dumped and rebuilt on the zero-filled area. -/
theorem nft_limit_dump_roundtrip_witness :
    nft_limit_init priv_zero ⟨some 10, some 1, some 0, none, some 1⟩ true 7 =
      Except.ok ⟨7, 500000000, 500000000, 10, 1000000000, 5, true⟩ ∧
    nft_limit_dump ⟨7, 500000000, 500000000, 10, 1000000000, 5, true⟩ NFT_LIMIT_PKTS =
      ⟨some 10, some 1, some 5, some 0, some 1⟩ ∧
    nft_limit_init priv_zero
        (nft_limit_dump ⟨7, 500000000, 500000000, 10, 1000000000, 5, true⟩ NFT_LIMIT_PKTS)
        true 99 = Except.ok ⟨99, 500000000, 500000000, 10, 1000000000, 5, true⟩ :=
  ⟨rfl, rfl,
    (nft_limit_dump_roundtrip priv_zero priv_zero ⟨some 10, some 1, some 0, none, some 1⟩
      true 7 99 0 ⟨7, 500000000, 500000000, 10, 1000000000, 5, true⟩ rfl rfl).2.1⟩


/-! ## Token conservation along a run -/

theorem clock_final_ge (inputs : List (Nat × Nat)) :
    ∀ last, clock_ordered last inputs → last ≤ clock_final last inputs := by
  induction inputs with
  | nil => intro last _; exact Nat.le_refl _
  | cons x rest ih =>
    intro last h
    obtain ⟨now, cost⟩ := x
    simp only [clock_ordered, clock_final] at h ⊢
    exact Nat.le_trans h.1 (ih now h.2)

theorem nft_limit_run_conserves (inputs : List (Nat × Nat)) :
    ∀ s : nft_limit_priv,
      s.tokens ≤ s.tokens_max → s.tokens_max < S64_SIGN →
      clock_ordered s.last inputs → (∀ x ∈ inputs, x.2 < S64_SIGN) →
      s.tokens_max + (clock_final s.last inputs - s.last) < U64_SIZE →
      (nft_limit_final s inputs).tokens + nft_limit_admitted_cost s inputs ≤
        s.tokens + (clock_final s.last inputs - s.last) := by
  induction inputs with
  | nil =>
    intro s _ _ _ _ _
    simp only [nft_limit_final, nft_limit_admitted_cost, clock_final, Nat.sub_self,
      Nat.add_zero, Nat.le_refl]
  | cons x rest ih =>
    intro s htok hmax hclk hcost hno
    obtain ⟨now, cost⟩ := x
    simp only [clock_ordered, clock_final] at hclk hno
    have hge := clock_final_ge rest now hclk.2
    have hc : cost < S64_SIGN := hcost (now, cost) (List.mem_cons_self _ _)
    have hexact := nft_limit_eval_exact s cost now hclk.1 hmax hc (by omega)
    simp only [nft_limit_final, nft_limit_admitted_cost, clock_final, hexact]
    have hrest := ih (evaluate_spec s cost now).2
    unfold evaluate_spec at hrest ⊢
    simp only at hrest ⊢
    by_cases hle : cost ≤ min (s.tokens + (now - s.last)) s.tokens_max
    · simp only [hle, if_true, Bool.false_xor] at hrest ⊢
      have h2 := hrest (by omega) hmax hclk.2
        (fun y hy => hcost y (List.mem_cons_of_mem _ hy)) (by omega)
      omega
    · simp only [hle, if_false, Bool.true_xor] at hrest ⊢
      have hne : ¬ ((!s.invert) = s.invert) := by cases s.invert <;> decide
      simp only [hne, if_false, Nat.zero_add]
      have h2 := hrest (Nat.min_le_right _ _) hmax hclk.2
        (fun y hy => hcost y (List.mem_cons_of_mem _ hy)) (by omega)
      omega


theorem nft_limit_eval_invert_eq (s : nft_limit_priv) (cost now : Nat) :
    (nft_limit_eval s cost now).2.invert = s.invert := by
  rw [nft_limit_eval_frame_eq]

theorem nft_limit_admitted_cost_const (c : Nat) (inputs : List (Nat × Nat)) :
    ∀ s : nft_limit_priv, (∀ x ∈ inputs, x.2 = c) →
      nft_limit_admitted_cost s inputs = c * nft_limit_admitted_count s inputs := by
  induction inputs with
  | nil => intro s _; rfl
  | cons x rest ih =>
    intro s hc
    obtain ⟨now, cost⟩ := x
    have h0 : cost = c := hc (now, cost) (List.mem_cons_self _ _)
    subst h0
    simp only [nft_limit_admitted_cost, nft_limit_admitted_count]
    rw [ih _ (fun y hy => hc y (List.mem_cons_of_mem _ hy)), Nat.mul_add]
    split_ifs
    · rw [Nat.mul_one]
    · rw [Nat.mul_zero]

/-- C18: along a run of nft_limit_eval from a state with
tokens <= tokens_max < 2^63, with clock values that do not decrease from
last on, costs below 2^63 and tokens_max + (now_n - last) < 2^64, the final
token count plus the sum of the costs of the admitted packets is at most the
initial token count plus the elapsed time now_n - last; with a constant cost
c > 0 the number of admitted packets is at most
(tokens + (now_n - last)) / c. -/
theorem nft_limit_rate_bound (s0 : nft_limit_priv) (inputs : List (Nat × Nat))
    (htok : s0.tokens ≤ s0.tokens_max) (hmax : s0.tokens_max < 2 ^ 63)
    (hclk : clock_ordered s0.last inputs) (hcost : ∀ x ∈ inputs, x.2 < 2 ^ 63)
    (hno : s0.tokens_max + (clock_final s0.last inputs - s0.last) < 2 ^ 64) :
    (nft_limit_final s0 inputs).tokens + nft_limit_admitted_cost s0 inputs ≤
      s0.tokens + (clock_final s0.last inputs - s0.last) ∧
    (∀ c, 0 < c → (∀ x ∈ inputs, x.2 = c) →
      nft_limit_admitted_count s0 inputs ≤
        (s0.tokens + (clock_final s0.last inputs - s0.last)) / c) := by
  have hmain := nft_limit_run_conserves inputs s0 htok (by simpa [S64_SIGN] using hmax)
    hclk (fun x hx => by simpa [S64_SIGN] using hcost x hx)
    (by simpa [U64_SIZE] using hno)
  refine ⟨hmain, ?_⟩
  intro c hc hall
  rw [nft_limit_admitted_cost_const c inputs s0 hall] at hmain
  rw [Nat.le_div_iff_mul_le hc, Nat.mul_comm]
  omega

/-- Witness of C18: a bucket of capacity 300 holding 250 tokens at clock 100
and three packets of cost 100 at the clock values 100, 120 and 140: the first
two are admitted, the third is rejected, 90 tokens remain, and
90 + 200 <= 250 + 40. -/
theorem nft_limit_rate_bound_witness :
    nft_limit_final ⟨100, 250, 300, 10, 1000, 3, false⟩
      [(100, 100), (120, 100), (140, 100)] =
      ⟨140, 90, 300, 10, 1000, 3, false⟩ ∧
    nft_limit_admitted_cost ⟨100, 250, 300, 10, 1000, 3, false⟩
      [(100, 100), (120, 100), (140, 100)] = 200 ∧
    nft_limit_admitted_count ⟨100, 250, 300, 10, 1000, 3, false⟩
      [(100, 100), (120, 100), (140, 100)] = 2 ∧
    ((nft_limit_final ⟨100, 250, 300, 10, 1000, 3, false⟩
        [(100, 100), (120, 100), (140, 100)]).tokens +
      nft_limit_admitted_cost ⟨100, 250, 300, 10, 1000, 3, false⟩
        [(100, 100), (120, 100), (140, 100)] ≤
      250 + (clock_final 100 [(100, 100), (120, 100), (140, 100)] - 100) ∧
    (∀ c, 0 < c → (∀ x ∈ [(100, 100), (120, 100), (140, 100)], x.2 = c) →
      nft_limit_admitted_count ⟨100, 250, 300, 10, 1000, 3, false⟩
          [(100, 100), (120, 100), (140, 100)] ≤
        (250 + (clock_final 100 [(100, 100), (120, 100), (140, 100)] - 100)) / c)) :=
  ⟨rfl, rfl, rfl,
    nft_limit_rate_bound ⟨100, 250, 300, 10, 1000, 3, false⟩
      [(100, 100), (120, 100), (140, 100)] (by decide) (by norm_num)
      (by simp [clock_ordered])
      (by intro x hx
          simp only [List.mem_cons, List.mem_singleton, List.mem_nil_iff, or_false] at hx
          rcases hx with h | h | h <;> subst h <;> norm_num)
      (by norm_num [clock_final])⟩

end NftLimit
